import Mathlib

/-!
# Verification of the expense-portal maintenance scripts

A shallow embedding, in Lean 4, of the three maintenance scripts of the
Controle-de-despesas repository:

* `correcao_pos_migracao.py` — the schema reconciliation script
  (`safe_add_column`, `verificar_e_corrigir_estrutura`);
* `migrate_melhorias_corrigido_v3.py` — the main migration script
  (`cleanup_temp_tables`, `migrate_users_table`, `safe_add_column`,
  `migrate_categorias_table`, `insert_categoria_safe`, `migrate_database`);
* `correcao_sql_v2.py` — the SQL-text patching script
  (`corrigir_consultas_especificas`).

The database is modelled as an association list of named tables; a table is a
list of column descriptors together with a list of rows, a row being a list of
values positionally aligned with the columns.  SQLite semantics relevant to the
scripts is embedded directly:

* `ALTER TABLE t ADD COLUMN c ty DEFAULT d` appends the column descriptor and
  gives every existing row the value `d` in the new column (SQLite reports the
  declared constant default for pre-existing rows);
* `ALTER TABLE t ADD COLUMN c ty` (no default) gives existing rows NULL;
* `UPDATE t SET c = v WHERE c IS NULL` rewrites exactly the rows whose value in
  `c` is NULL;
* statements referring to a missing table or column fail, and a failure inside
  the scripts' transaction triggers a rollback to the state at `BEGIN`.

`datetime('now')` is modelled by an explicit `now : String` parameter threaded
through the procedures.
-/

set_option maxRecDepth 4000

namespace Despesas

/-- A SQL value: NULL, an integer, a real (represented by its source literal
text), or a text value. -/
inductive Val where
  | null : Val
  | int : Int → Val
  | text : String → Val
  deriving DecidableEq, Repr

/-- A column descriptor: name, declared type text, optional declared default
literal (already evaluated to a `Val`). -/
structure Col where
  name : String
  ty : String
  dflt : Option Val
  deriving DecidableEq, Repr

/-- A table: its columns and its rows.  Rows are lists of values positionally
aligned with `cols`. -/
structure Table where
  cols : List Col
  rows : List (List Val)
  deriving DecidableEq, Repr

/-- A database: an association list from table name to table. -/
abbrev DB := List (String × Table)

/-- Errors surfaced by the embedded SQL layer and by the migration script. -/
inductive MigErr where
  | noSuchTable : String → MigErr
  | noSuchColumn : String → MigErr
  | dataLoss : Nat → Nat → MigErr
  | injected : MigErr
  deriving DecidableEq, Repr

/-- Look a table up by name (first match, as in SQLite where names are unique). -/
def lookupTable (db : DB) (n : String) : Option Table :=
  match db with
  | [] => none
  | (m, t) :: rest => if m = n then some t else lookupTable rest n

/-- `table_exists` of both scripts: the `sqlite_master` query. -/
def tableExists (db : DB) (n : String) : Bool :=
  (lookupTable db n).isSome

/-- Replace the (first) table named `n` by `t`. -/
def setTable (db : DB) (n : String) (t : Table) : DB :=
  match db with
  | [] => []
  | (m, u) :: rest => if m = n then (n, t) :: rest else (m, u) :: setTable rest n t

/-- `DROP TABLE n` (guarded by existence at every call site). -/
def dropTable (db : DB) (n : String) : DB :=
  match db with
  | [] => []
  | (m, t) :: rest => if m = n then dropTable rest n else (m, t) :: dropTable rest n

/-- `CREATE TABLE n (...)`: a fresh empty table appended to the database. -/
def createTable (db : DB) (n : String) (cols : List Col) : DB :=
  db ++ [(n, ⟨cols, []⟩)]

/-- `ALTER TABLE old RENAME TO new`. -/
def renameTable (db : DB) (old new : String) : DB :=
  db.map (fun p => if p.1 = old then (new, p.2) else p)

/-- Position of a column name in a column list (`PRAGMA table_info` order). -/
def colIdxAux (cols : List Col) (c : String) : Option Nat :=
  match cols with
  | [] => none
  | col :: rest => if col.name = c then some 0 else (colIdxAux rest c).map (· + 1)

/-- Index of a column name in a table (`PRAGMA table_info` position). -/
def colIdx (t : Table) (c : String) : Option Nat :=
  colIdxAux t.cols c

/-- `column_exists` of both scripts. -/
def columnExists (t : Table) (c : String) : Bool :=
  (colIdx t c).isSome

/-- The value of a row at column position `i`; out-of-range reads are NULL. -/
def getCell : List Val → Nat → Val
  | [], _ => Val.null
  | v :: _, 0 => v
  | _ :: rest, i + 1 => getCell rest i

/-- Write position `i` of a row, padding with NULL if the row is short. -/
def setCell : List Val → Nat → Val → List Val
  | [], 0, v => [v]
  | [], i + 1, v => Val.null :: setCell [] i v
  | _ :: rest, 0, v => v :: rest
  | x :: rest, i + 1, v => x :: setCell rest i v

/-- `ALTER TABLE ... ADD COLUMN`: the descriptor is appended and every
existing row receives the declared default (NULL when there is none). -/
def addColumn (t : Table) (c : Col) : Table :=
  ⟨t.cols ++ [c], t.rows.map (fun r => r ++ [c.dflt.getD Val.null])⟩

/-- `UPDATE t SET c = v WHERE c IS NULL`.  Total function: call sites in the
scripts only reach it after a successful count query on the same column. -/
def updateWhereNull (t : Table) (c : String) (v : Val) : Table :=
  match colIdx t c with
  | none => t
  | some i => ⟨t.cols, t.rows.map (fun r => if getCell r i = Val.null then setCell r i v else r)⟩

/-- Number of rows of `t` whose value in column index `i` is NULL. -/
def countNullAt (t : Table) (i : Nat) : Nat :=
  (t.rows.filter (fun r => getCell r i = Val.null)).length

/-- `SELECT COUNT(*) FROM t WHERE c IS NULL` on a single table; `none` when the
column does not exist. -/
def countNullT (t : Table) (c : String) : Option Nat :=
  (colIdx t c).map (countNullAt t)

/-- `SELECT COUNT(*) FROM tbl WHERE c IS NULL` at database level, failing like
SQLite when the table or the column is missing. -/
def countNullDB (db : DB) (tbl c : String) : Except MigErr Nat :=
  match lookupTable db tbl with
  | none => .error (.noSuchTable tbl)
  | some t =>
    match countNullT t c with
    | none => .error (.noSuchColumn c)
    | some n => .ok n

/-- `UPDATE tbl SET c = v WHERE c IS NULL` at database level. -/
def backfillNull (db : DB) (tbl c : String) (v : Val) : DB :=
  match lookupTable db tbl with
  | none => db
  | some t => setTable db tbl (updateWhereNull t c v)

/-! ## `correcao_pos_migracao.py`: the schema reconciliation procedure -/

/-- One entry of the reconciliation report (the script's progress prints). -/
inductive Action where
  | columnAdded : String → String → Action
  | columnAlreadyPresent : String → String → Action
  | mutationFailed : String → String → Action
  | rowsBackfilled : String → String → Nat → Action
  | tableMissing : String → Action
  deriving DecidableEq, Repr

/-- Is this report entry a `RowsBackfilled`? -/
def Action.isRowsBackfilled : Action → Bool
  | .rowsBackfilled _ _ _ => true
  | _ => false

/-- Does this report entry record the processing of column `cn` of table
`tn` (added, already present, or failed)? -/
def Action.mentions : Action → String → String → Bool
  | .columnAdded t c, tn, cn => t = tn && c = cn
  | .columnAlreadyPresent t c, tn, cn => t = tn && c = cn
  | .mutationFailed t c, tn, cn => t = tn && c = cn
  | .rowsBackfilled _ _ _, _, _ => false
  | .tableMissing _, _, _ => false

/-- `safe_add_column(cursor, table_name, column_name, column_type, default_value)`
of `correcao_pos_migracao.py`.  The possibility that the `ALTER TABLE` raises
(caught by the script's `try/except`, which leaves the table untouched and
continues) is modelled by the oracle `fails`.  When the added column is
`created_at` with no default, existing rows (all NULL in the new column) are
immediately set to `datetime('now')`. -/
def safe_add_column (fails : String → String → Bool) (now : String)
    (tbl : String) (t : Table) (name ty : String) (dflt : Option Val) :
    Table × Action :=
  if columnExists t name then
    (t, .columnAlreadyPresent tbl name)
  else if fails tbl name then
    (t, .mutationFailed tbl name)
  else
    let t1 := addColumn t ⟨name, ty, dflt⟩
    let t2 := if name = "created_at" ∧ dflt = none
              then updateWhereNull t1 "created_at" (Val.text now)
              else t1
    (t2, .columnAdded tbl name)

/-- The oracle under which every `ALTER TABLE` succeeds (the deterministic
behaviour of the script when SQLite raises no error). -/
def noFail : String → String → Bool := fun _ _ => false

/-- A target schema: table name to expected column list (the shape of the
script's `estruturas_esperadas` dictionary). -/
abbrev Target := List (String × List Col)

/-- The inner loop of `verificar_e_corrigir_estrutura` for one table:
`for column_name, column_type, default_value in expected_columns:
safe_add_column(...)`. -/
def reconcileTable (fails : String → String → Bool) (now : String)
    (tbl : String) (t : Table) : List Col → Table × List Action
  | [] => (t, [])
  | spec :: rest =>
    let r := safe_add_column fails now tbl t spec.name spec.ty spec.dflt
    let r2 := reconcileTable fails now tbl r.1 rest
    (r2.1, r.2 :: r2.2)

/-- The table loop of `verificar_e_corrigir_estrutura`: existing tables are
reconciled column by column, missing tables are reported and skipped. -/
def reconcileLoop (fails : String → String → Bool) (now : String)
    (db : DB) : Target → DB × List Action
  | [] => (db, [])
  | entry :: rest =>
    match lookupTable db entry.1 with
    | some t =>
      let r := reconcileTable fails now entry.1 t entry.2
      let r2 := reconcileLoop fails now (setTable db entry.1 r.1) rest
      (r2.1, r.2 ++ r2.2)
    | none =>
      let r2 := reconcileLoop fails now db rest
      (r2.1, .tableMissing entry.1 :: r2.2)

/-- The script's `estruturas_esperadas` dictionary, verbatim. -/
def estruturas_esperadas : Target :=
  [ ("users",
     [⟨"perfil", "TEXT", some (.text "usuario")⟩,
      ⟨"nome_completo", "TEXT", none⟩,
      ⟨"email", "TEXT", none⟩,
      ⟨"ativo", "BOOLEAN", some (.int 1)⟩,
      ⟨"created_at", "TEXT", none⟩,
      ⟨"updated_at", "TEXT", none⟩]),
    ("categorias",
     [⟨"descricao", "TEXT", none⟩,
      ⟨"cor", "TEXT", some (.text "#667eea")⟩,
      ⟨"icone", "TEXT", some (.text "fas fa-tag")⟩,
      ⟨"ativo", "BOOLEAN", some (.int 1)⟩,
      ⟨"created_at", "TEXT", none⟩]),
    ("despesas",
     [⟨"cartao_id", "INTEGER", none⟩,
      ⟨"grupo_id", "INTEGER", none⟩,
      ⟨"despesa_fixa_id", "INTEGER", none⟩,
      ⟨"parcela_atual", "INTEGER", some (.int 1)⟩,
      ⟨"total_parcelas", "INTEGER", some (.int 1)⟩,
      ⟨"grupo_parcela", "TEXT", none⟩,
      ⟨"tipo", "TEXT", some (.text "individual")⟩,
      ⟨"observacoes", "TEXT", none⟩,
      ⟨"user_id", "INTEGER", none⟩,
      ⟨"created_at", "TEXT", none⟩]),
    ("despesas_fixas",
     [⟨"observacoes", "TEXT", none⟩,
      ⟨"user_id", "INTEGER", none⟩,
      ⟨"grupo_id", "INTEGER", none⟩,
      ⟨"ativo", "BOOLEAN", some (.int 1)⟩,
      ⟨"created_at", "TEXT", none⟩]),
    ("grupos",
     [⟨"descricao", "TEXT", none⟩,
      ⟨"tipo", "TEXT", some (.text "familia")⟩,
      ⟨"criado_por", "INTEGER", none⟩,
      ⟨"ativo", "BOOLEAN", some (.int 1)⟩,
      ⟨"created_at", "TEXT", none⟩]),
    ("grupo_membros",
     [⟨"papel", "TEXT", some (.text "membro")⟩,
      ⟨"adicionado_por", "INTEGER", none⟩,
      ⟨"created_at", "TEXT", none⟩]),
    ("cartoes",
     [⟨"descricao", "TEXT", none⟩,
      ⟨"limite_credito", "REAL", some (.text "0")⟩,
      ⟨"bandeira", "TEXT", none⟩,
      ⟨"user_id", "INTEGER", none⟩,
      ⟨"ativo", "BOOLEAN", some (.int 1)⟩,
      ⟨"created_at", "TEXT", none⟩]) ]

/-- One step of the script's "consistência dos dados" section: count the NULL
rows of `tbl.c` and, when the count is positive, backfill them with `v` and
report.  A missing table or column aborts the run (SQLite error), carrying the
actions already performed (printed) at that point. -/
def checkAndFix (tbl c : String) (v : Val) (st : DB × List Action) :
    Except (MigErr × List Action) (DB × List Action) :=
  match countNullDB st.1 tbl c with
  | .error e => .error (e, st.2)
  | .ok n =>
    if n > 0 then
      .ok (backfillNull st.1 tbl c v, st.2 ++ [.rowsBackfilled tbl c n])
    else
      .ok st

/-- Same, but guarded by `table_exists` as in the `categorias` and
`despesas_fixas` blocks of the script. -/
def checkAndFixGuarded (tbl c : String) (v : Val) (st : DB × List Action) :
    Except (MigErr × List Action) (DB × List Action) :=
  if tableExists st.1 tbl then checkAndFix tbl c v st else .ok st

/-- The list `tabelas_com_created_at` of the script. -/
def tabelasComCreatedAt : List String :=
  ["users", "categorias", "despesas", "despesas_fixas", "grupos",
   "grupo_membros", "cartoes"]

/-- One table of the script's final `created_at` fix: if the table exists and
has a `created_at` column, backfill its NULL values with `datetime('now')`. -/
def fixCreatedAtStep (now : String) (tbl : String) (st : DB × List Action) :
    DB × List Action :=
  match lookupTable st.1 tbl with
  | some t =>
    match countNullT t "created_at" with
    | some n =>
      if n > 0 then
        (setTable st.1 tbl (updateWhereNull t "created_at" (Val.text now)),
         st.2 ++ [.rowsBackfilled tbl "created_at" n])
      else st
    | none => st
  | none => st

/-- The `created_at` fix over a list of table names. -/
def fixCreatedAtList (now : String) : List String → (DB × List Action) → DB × List Action
  | [], st => st
  | tbl :: rest, st => fixCreatedAtList now rest (fixCreatedAtStep now tbl st)

/-- The script's final `created_at` fix over `tabelas_com_created_at`.  Both
guards come straight from the source, so this pass never fails. -/
def fixCreatedAt (now : String) (st : DB × List Action) : DB × List Action :=
  fixCreatedAtList now tabelasComCreatedAt st

/-- The whole "Verificar consistência dos dados" section of
`verificar_e_corrigir_estrutura`: the unguarded `users.ativo` fix, the guarded
`categorias.ativo` / `categorias.cor` fixes, the guarded
`despesas_fixas.ativo` fix, then the `created_at` pass. -/
def fixPassAll (now : String) (db : DB) :
    Except (MigErr × List Action) (DB × List Action) :=
  match checkAndFix "users" "ativo" (.int 1) (db, []) with
  | .error e => .error e
  | .ok st1 =>
    match checkAndFixGuarded "categorias" "ativo" (.int 1) st1 with
    | .error e => .error e
    | .ok st2 =>
      match checkAndFixGuarded "categorias" "cor" (.text "#667eea") st2 with
      | .error e => .error e
      | .ok st3 =>
        match checkAndFixGuarded "despesas_fixas" "ativo" (.int 1) st3 with
        | .error e => .error e
        | .ok st4 => .ok (fixCreatedAt now st4)

/-- The committed effect of one `safe_add_column` call, namely the
`ALTER TABLE` alone.  The script never issues a `BEGIN`, so under sqlite3's
transaction control each `ALTER TABLE` autocommits; the `UPDATE` backfill of a
defaultless `created_at` column is DML, lives in the implicit transaction, and
is undone by `conn.rollback()` when the run fails. -/
def safe_add_column_ddl (fails : String → String → Bool) (tbl : String)
    (t : Table) (name ty : String) (dflt : Option Val) : Table :=
  if columnExists t name then t
  else if fails tbl name then t
  else addColumn t ⟨name, ty, dflt⟩

/-- The committed (DDL-only) effect of the per-table column loop. -/
def reconcileTableDDL (fails : String → String → Bool) (tbl : String)
    (t : Table) : List Col → Table
  | [] => t
  | spec :: rest =>
    reconcileTableDDL fails tbl
      (safe_add_column_ddl fails tbl t spec.name spec.ty spec.dflt) rest

/-- The committed (DDL-only) effect of the whole table loop: the state a
failed run leaves behind after `conn.rollback()`, which undoes the uncommitted
`UPDATE` backfills but not the autocommitted `ALTER TABLE`s. -/
def reconcileLoopDDL (fails : String → String → Bool) (db : DB) :
    Target → DB
  | [] => db
  | entry :: rest =>
    match lookupTable db entry.1 with
    | some t =>
      reconcileLoopDDL fails
        (setTable db entry.1 (reconcileTableDDL fails entry.1 t entry.2)) rest
    | none => reconcileLoopDDL fails db rest

/-- Outcome of one run of `verificar_e_corrigir_estrutura`: the returned
boolean, the report (progress prints), and the resulting database. -/
structure RunResult where
  ok : Bool
  report : List Action
  db : DB
  deriving DecidableEq, Repr

/-- `verificar_e_corrigir_estrutura` of `correcao_pos_migracao.py`: the column
loop over the target schema, then the consistency passes; `conn.commit()` on
success.  On an exception the script prints the error and calls
`conn.rollback()`; since it never issues a `BEGIN`, the `ALTER TABLE`s of the
loop have already autocommitted and survive the rollback, and only the
uncommitted `UPDATE` backfills are undone: a failed run leaves exactly the
DDL-only state of the loop. -/
def verificar_e_corrigir_estrutura (fails : String → String → Bool)
    (now : String) (target : Target) (db : DB) : RunResult :=
  let loop := reconcileLoop fails now db target
  match fixPassAll now loop.1 with
  | .ok st => ⟨true, loop.2 ++ st.2, st.1⟩
  | .error e => ⟨false, loop.2 ++ e.2, reconcileLoopDDL fails db target⟩

/-! ## `migrate_melhorias_corrigido_v3.py`: users restructure and seeding -/

/-- `cleanup_temp_tables(cursor)`: drop the temporary tables left over by an
incomplete earlier migration. -/
def cleanup_temp_tables (db : DB) : DB :=
  dropTable (dropTable (dropTable db "users_new") "despesas_new") "categorias_new"

/-- The column list of the rebuilt `users` table (the `CREATE TABLE users_new`
statement). -/
def usersNewCols : List Col :=
  [⟨"id", "INTEGER", none⟩,
   ⟨"username", "TEXT", none⟩,
   ⟨"password_hash", "TEXT", none⟩,
   ⟨"perfil", "TEXT", some (.text "usuario")⟩,
   ⟨"nome_completo", "TEXT", none⟩,
   ⟨"email", "TEXT", none⟩,
   ⟨"ativo", "BOOLEAN", some (.int 1)⟩,
   ⟨"created_at", "TEXT", none⟩,
   ⟨"updated_at", "TEXT", none⟩]

/-- `new_columns` of `migrate_users_table`: the presence check that decides
whether the copy-swap restructure is needed. -/
def needsMigration (t : Table) : Bool :=
  !(columnExists t "nome_completo" && columnExists t "email" &&
    columnExists t "ativo" && columnExists t "created_at" &&
    columnExists t "updated_at")

/-- The per-row mapping of the `INSERT INTO users_new ... SELECT ... FROM users`
statement: ids, usernames and password hashes are copied, `perfil` is
COALESCEd to `'usuario'`, `nome_completo` and `email` are recomputed by the
CASE expressions on `username`, `ativo` becomes 1 and both timestamps become
`datetime('now')`.  The statement fails like SQLite when one of the referenced
source columns does not exist. -/
def transformRow (now : String) (t : Table) (row : List Val) :
    Except MigErr (List Val) :=
  match colIdx t "id", colIdx t "username",
        colIdx t "password_hash", colIdx t "perfil" with
  | some i, some j, some k, some l =>
    let idv := getCell row i
    let un := getCell row j
    let ph := getCell row k
    let pf := getCell row l
    let perfil := if pf = Val.null then Val.text "usuario" else pf
    let nome :=
      if un = Val.text "master" then Val.text "Administrador Master"
      else if un = Val.text "daniela" then Val.text "Daniela Silva"
      else if un = Val.text "paulo" then Val.text "Paulo Santos"
      else un
    let email :=
      if un = Val.text "master" then Val.text "admin@portal.com"
      else if un = Val.text "daniela" then Val.text "daniela@email.com"
      else if un = Val.text "paulo" then Val.text "paulo@email.com"
      else Val.null
    .ok [idv, un, ph, perfil, nome, email, .int 1, .text now, .text now]
  | none, _, _, _ => .error (.noSuchColumn "id")
  | _, none, _, _ => .error (.noSuchColumn "username")
  | _, _, none, _ => .error (.noSuchColumn "password_hash")
  | _, _, _, none => .error (.noSuchColumn "perfil")

/-- Transform a list of source rows, stopping at the first error. -/
def copyRowsAux (now : String) (t : Table) : List (List Val) → Except MigErr (List (List Val))
  | [] => .ok []
  | r :: rest =>
    match transformRow now t r with
    | .error e => .error e
    | .ok o =>
      match copyRowsAux now t rest with
      | .error e => .error e
      | .ok os => .ok (o :: os)

/-- The whole copy statement: every row of the old `users` table transformed. -/
def copyUsersRows (now : String) (t : Table) : Except MigErr (List (List Val)) :=
  copyRowsAux now t t.rows

/-- The primitive statements of the restructure branch of
`migrate_users_table`, in source order: drop any `users_new`, create
`users_new`, copy the rows (`newRows` is the result of the transform, so that
the row-count guard can also be examined against an arbitrary `rowTransform`
as in the specification), the row-count guard, `DROP TABLE users`, and the
rename.  Each entry is one `cursor.execute`. -/
def usersStmts (newRows : List (List Val)) : List (DB → Except MigErr DB) :=
  [ fun db => .ok (dropTable db "users_new"),
    fun db => .ok (createTable db "users_new" usersNewCols),
    fun db =>
      match lookupTable db "users_new" with
      | none => .error (.noSuchTable "users_new")
      | some tn => .ok (setTable db "users_new" ⟨tn.cols, tn.rows ++ newRows⟩),
    fun db =>
      match lookupTable db "users", lookupTable db "users_new" with
      | some tu, some tn =>
        if tu.rows.length ≠ tn.rows.length
        then .error (.dataLoss tu.rows.length tn.rows.length)
        else .ok db
      | none, _ => .error (.noSuchTable "users")
      | _, none => .error (.noSuchTable "users_new"),
    fun db => .ok (dropTable db "users"),
    fun db => .ok (renameTable db "users_new" "users") ]

/-- Run a list of statements left to right, stopping at the first error. -/
def runStmts (stmts : List (DB → Except MigErr DB)) (db : DB) :
    Except MigErr DB :=
  match stmts with
  | [] => .ok db
  | f :: rest =>
    match f db with
    | .ok db1 => runStmts rest db1
    | .error e => .error e

/-- `migrate_users_table(cursor)`: initial `cleanup_temp_tables`, then either
create `users` from scratch, run the copy-swap restructure, or do nothing when
the table already has all the new columns. -/
def migrate_users_table (now : String) (db0 : DB) : Except MigErr DB :=
  let db := cleanup_temp_tables db0
  match lookupTable db "users" with
  | none => .ok (createTable db "users" usersNewCols)
  | some u =>
    if needsMigration u then
      match copyUsersRows now u with
      | .error e => .error e
      | .ok newRows => runStmts (usersStmts newRows) db
    else .ok db

/-- `migrate_users_table` with a failure injected after the first `k`
statements of the restructure branch (the remaining statements never run). -/
def migrateUsersFailAt (k : Nat) (now : String) (db0 : DB) :
    Except MigErr DB :=
  let db := cleanup_temp_tables db0
  match lookupTable db "users" with
  | none => .ok (createTable db "users" usersNewCols)
  | some u =>
    if needsMigration u then
      match copyUsersRows now u with
      | .error e => .error e
      | .ok newRows =>
        match runStmts ((usersStmts newRows).take k) db with
        | .ok _ => .error .injected
        | .error e => .error e
    else .ok db

/-- The transaction bracket of `migrate_database`: `BEGIN TRANSACTION`, run the
body, `COMMIT` on success; on any exception `ROLLBACK` (restoring the state at
`BEGIN`) followed by the recovery `cleanup_temp_tables` and a commit. -/
def runMigrationTx (body : DB → Except MigErr DB) (db0 : DB) : Bool × DB :=
  match body db0 with
  | .ok db1 => (true, db1)
  | .error _ => (false, cleanup_temp_tables db0)

/-- `safe_add_column` of `migrate_melhorias_corrigido_v3.py`.  Unlike the
version in the post-migration script there is no `try/except`: a failing
`ALTER TABLE` (modelled by the oracle) raises and propagates to the caller. -/
def safe_add_column_v3 (fails : String → String → Bool) (now : String)
    (tbl : String) (t : Table) (name ty : String) (dflt : Option Val) :
    Except MigErr (Table × Bool) :=
  if columnExists t name then
    .ok (t, false)
  else if fails tbl name then
    .error (.noSuchColumn name)
  else
    let t1 := addColumn t ⟨name, ty, dflt⟩
    let t2 := if name = "created_at" ∧ dflt = none
              then updateWhereNull t1 "created_at" (Val.text now)
              else t1
    .ok (t2, true)

/-- `columns_to_add` of `migrate_categorias_table`. -/
def categoriasColumnsToAdd : List Col :=
  [⟨"descricao", "TEXT", none⟩,
   ⟨"cor", "TEXT", some (.text "#667eea")⟩,
   ⟨"icone", "TEXT", some (.text "fas fa-tag")⟩,
   ⟨"ativo", "BOOLEAN", some (.int 1)⟩,
   ⟨"created_at", "TEXT", none⟩]

/-- `migrate_categorias_table(cursor)` of the v3 script, on an existing
`categorias` table: add the missing columns one by one with the v3
`safe_add_column`.  Returns the names of the columns added; an `ALTER TABLE`
failure aborts the whole loop (no `try/except` in the v3 script). -/
def migrate_categorias_table (fails : String → String → Bool) (now : String)
    (t : Table) : Except MigErr (Table × List String) :=
  categoriasColumnsToAdd.foldlM
    (fun acc spec => do
      let r ← safe_add_column_v3 fails now "categorias" acc.1 spec.name spec.ty spec.dflt
      return (r.1, if r.2 then acc.2 ++ [spec.name] else acc.2))
    (t, [])

/-- `categorias_padrao` of `migrate_database`: (nome, descricao, cor, icone). -/
def categorias_padrao : List (String × String × String × String) :=
  [("Alimentação", "Gastos com comida e bebidas", "#28a745", "fas fa-utensils"),
   ("Transporte", "Combustível, transporte público, etc.", "#007bff", "fas fa-car"),
   ("Moradia", "Aluguel, condomínio, IPTU, etc.", "#6f42c1", "fas fa-home"),
   ("Saúde", "Médicos, medicamentos, planos", "#dc3545", "fas fa-heartbeat"),
   ("Educação", "Cursos, livros, material escolar", "#fd7e14", "fas fa-graduation-cap"),
   ("Lazer", "Cinema, restaurantes, viagens", "#e83e8c", "fas fa-gamepad"),
   ("Vestuário", "Roupas, calçados, acessórios", "#20c997", "fas fa-tshirt"),
   ("Tecnologia", "Eletrônicos, internet, telefone", "#6c757d", "fas fa-laptop"),
   ("Casa em Ordem", "Despesas familiares compartilhadas", "#667eea", "fas fa-users"),
   ("Cartão de Crédito", "Despesas no cartão de crédito", "#ffc107", "fas fa-credit-card")]

/-- The row built by `insert_categoria_safe` for an insert: the named value for
each column the statement lists (all of which exist by construction), the
declared default (or NULL) for every other column of the table. -/
def categoriaRow (now : String) (t : Table)
    (nome descricao cor icone : String) : List Val :=
  t.cols.map (fun c =>
    if c.name = "nome" then Val.text nome
    else if c.name = "descricao" then Val.text descricao
    else if c.name = "cor" then Val.text cor
    else if c.name = "icone" then Val.text icone
    else if c.name = "ativo" then Val.int 1
    else if c.name = "created_at" then Val.text now
    else c.dflt.getD Val.null)

/-- `insert_categoria_safe(cursor, nome, descricao, cor, icone)`: if a
`categorias` row with this `nome` already exists do nothing, otherwise insert a
row built from the columns that exist. -/
def insert_categoria_safe (now : String) (db : DB)
    (nome descricao cor icone : String) : Except MigErr DB :=
  match lookupTable db "categorias" with
  | none => .error (.noSuchTable "categorias")
  | some t =>
    match colIdx t "id" with
    | none => .error (.noSuchColumn "id")
    | some _ =>
      match colIdx t "nome" with
      | none => .error (.noSuchColumn "nome")
      | some i =>
        if t.rows.any (fun r => getCell r i = Val.text nome) then
          .ok db
        else
          .ok (setTable db "categorias"
                ⟨t.cols, t.rows ++ [categoriaRow now t nome descricao cor icone]⟩)

/-- The seeding loop over a list of category descriptions. -/
def seedList (now : String) : List (String × String × String × String) → DB → Except MigErr DB
  | [], db => .ok db
  | e :: rest, db =>
    match insert_categoria_safe now db e.1 e.2.1 e.2.2.1 e.2.2.2 with
    | .ok db1 => seedList now rest db1
    | .error err => .error err

/-- The default-category seeding pass of `migrate_database`:
`for nome, desc, cor, icone in categorias_padrao: insert_categoria_safe(...)`. -/
def seedCategorias (now : String) (db : DB) : Except MigErr DB :=
  seedList now categorias_padrao db

/-- `seedCategorias` iterated `k` times (re-running the seeding pass). -/
def seedCategoriasN (now : String) : Nat → DB → Except MigErr DB
  | 0, db => .ok db
  | k + 1, db =>
    match seedCategorias now db with
    | .ok db1 => seedCategoriasN now k db1
    | .error e => .error e

/-- Number of `categorias` rows whose `nome` value is the text `n`. -/
def countNome (db : DB) (n : String) : Nat :=
  match lookupTable db "categorias" with
  | none => 0
  | some t =>
    match colIdx t "nome" with
    | none => 0
    | some i => (t.rows.filter (fun r => getCell r i = Val.text n)).length

/-! ## The `__main__` blocks

Neither script ever calls `sys.exit`: after printing the success or failure
banner and waiting on `input()`, each script falls off the end of the module,
so the Python process exits with status 0 in both cases.  The models return
the printed banner lines together with the process exit status. -/

/-- The `__main__` block of `migrate_melhorias_corrigido_v3.py`, as a function
of the boolean returned by `migrate_database()`: banner lines and process exit
status. -/
def main_migrate (migrateResult : Bool) : List String × Nat :=
  (if migrateResult then
     ["✅ Migração executada com sucesso!",
      "🚀 O portal agora possui todas as novas funcionalidades!"]
   else
     ["❌ Falha na migração!",
      "Verifique os erros acima e tente novamente."],
   0)

/-- The `__main__` block of `correcao_pos_migracao.py`, as a function of the
boolean returned by `verificar_e_corrigir_estrutura()`. -/
def main_correcao (fixResult : Bool) : List String × Nat :=
  (if fixResult then
     ["✅ Correção concluída!",
      "🚀 Agora você pode acessar o portal sem erros!"]
   else
     ["❌ Falha na correção!",
      "Verifique os erros acima e tente novamente."],
   0)

/-! ## `correcao_sql_v2.py`: the text-substitution pass

Python strings are modelled as `List Char`.  `str.replace(old, new)` replaces
the leftmost-first, non-overlapping occurrences of `old`; `old in s` is the
substring test; `s.count(old)` counts non-overlapping occurrences. -/

/-- `p` is a prefix of `s` (propositional form). -/
def Pref (p s : List Char) : Prop := ∃ t, p ++ t = s

/-- `p` is a suffix of `s` (propositional form). -/
def Suff (p s : List Char) : Prop := ∃ t, t ++ p = s

/-- `q` occurs as a contiguous substring of `s` (Python's `q in s`). -/
def Infx (q s : List Char) : Prop := ∃ a b, a ++ q ++ b = s

/-- Boolean prefix test. -/
def prefB : List Char → List Char → Bool
  | [], _ => true
  | _ :: _, [] => false
  | a :: as, b :: bs => if a = b then prefB as bs else false

/-- Boolean substring test (Python's `in`). -/
def hasInfix (q : List Char) : List Char → Bool
  | [] => q.isEmpty
  | c :: t => prefB q (c :: t) || hasInfix q t

/-- Python's `s.replace(p, r)` for nonempty `p`: scan left to right, replacing
each occurrence of `p` by `r` and resuming after it. -/
def replaceAll (p r : List Char) (s : List Char) : List Char :=
  match s with
  | [] => []
  | c :: t =>
    if h : p ≠ [] ∧ prefB p (c :: t) = true then
      r ++ replaceAll p r ((c :: t).drop p.length)
    else
      c :: replaceAll p r t
termination_by s.length
decreasing_by
  · simp only [List.length_drop, List.length_cons]
    have hp : 0 < p.length := List.length_pos.mpr h.1
    omega
  · simp only [List.length_cons]
    omega

/-- The decomposition of `s` along the same scan: the maximal `p`-free chunks
between consecutive occurrences of `p`. -/
def splitP (p : List Char) (s : List Char) : List (List Char) :=
  match s with
  | [] => [[]]
  | c :: t =>
    if h : p ≠ [] ∧ prefB p (c :: t) = true then
      [] :: splitP p ((c :: t).drop p.length)
    else
      match splitP p t with
      | [] => [[c]]
      | x :: xs => (c :: x) :: xs
termination_by s.length
decreasing_by
  · simp only [List.length_drop, List.length_cons]
    have hp : 0 < p.length := List.length_pos.mpr h.1
    omega
  · simp only [List.length_cons]
    omega

/-- Join a chunk list with separator `r` between consecutive chunks. -/
def joinSep (r : List Char) : List (List Char) → List Char
  | [] => []
  | [x] => x
  | x :: y :: xs => x ++ r ++ joinSep r (y :: xs)

/-- Python's `s.count(p)` for nonempty `p` (non-overlapping occurrences). -/
def countOccur (p s : List Char) : Nat :=
  (splitP p s).length - 1

/-- The `consultas_especificas` table of `corrigir_consultas_especificas`:
(buscar, substituir) pairs, in source order.  (`.strip()` of each pattern is
the pattern itself.) -/
def consultas_especificas : List (List Char × List Char) :=
  [("WHERE grupo_id".toList, "WHERE d.grupo_id".toList),
   ("AND grupo_id".toList, "AND d.grupo_id".toList),
   ("ORDER BY grupo_id".toList, "ORDER BY d.grupo_id".toList),
   ("GROUP BY grupo_id".toList, "GROUP BY d.grupo_id".toList),
   ("WHERE user_id".toList, "WHERE d.user_id".toList),
   ("AND user_id".toList, "AND d.user_id".toList),
   ("ORDER BY user_id".toList, "ORDER BY d.user_id".toList)]

/-- One iteration of the loop in `corrigir_consultas_especificas`: when
`buscar` occurs in the current content, count the occurrences, record the
correction, and replace. -/
def applyFix (st : List Char × List (List Char × Nat))
    (pr : List Char × List Char) : List Char × List (List Char × Nat) :=
  if hasInfix pr.1 st.1 then
    (replaceAll pr.1 pr.2 st.1, st.2 ++ [(pr.1, countOccur pr.1 st.1)])
  else st

/-- The loop of `corrigir_consultas_especificas`: content and corrections
accumulated over the seven substitutions. -/
def corrigirState (s : List Char) : List Char × List (List Char × Nat) :=
  consultas_especificas.foldl applyFix (s, [])

/-- The final `conteudo_modificado` of `corrigir_consultas_especificas`. -/
def corrigirContent (s : List Char) : List Char :=
  (corrigirState s).1

/-- `corrigir_consultas_especificas(conteudo)`: returns
`(conteudo_modificado, correcoes)` when corrections were applied and
`(None, [])` otherwise. -/
def corrigir_consultas_especificas (s : List Char) :
    Option (List Char) × List (List Char × Nat) :=
  let st := corrigirState s
  if st.2 ≠ [] then (some st.1, st.2) else (none, [])

/-- Sufficient condition for the replacement `p → r` (for any searched pattern
`q`) never to create a new occurrence of `q`: `q` is not inside `r`, `r` is
not inside `q`, no nonempty suffix of `r` starts `q`, and no nonempty suffix
of `q` starts `r`.  Decidable by evaluation; checked below for all 7 × 7
pattern/replacement pairs of `consultas_especificas`. -/
def noCross (q r : List Char) : Bool :=
  !(hasInfix q r) && !(hasInfix r q)
  && r.tails.all (fun y => y.isEmpty || !(prefB y q))
  && q.tails.all (fun v => v.isEmpty || !(prefB v r))

/-! ## Concrete instances used by counterexamples and witnesses -/

/-- A `despesas_fixas` table with three rows and no `ativo` column. -/
def dfTable : Table :=
  ⟨[⟨"id", "INTEGER", none⟩, ⟨"descricao", "TEXT", none⟩, ⟨"valor", "REAL", none⟩],
   [[.int 1, .text "aluguel", .text "100"],
    [.int 2, .text "luz", .text "50"],
    [.int 3, .text "agua", .text "30"]]⟩

/-- A database holding only `despesas_fixas` (no `users` table). -/
def dbOnlyDF : DB := [("despesas_fixas", dfTable)]

/-- A database with a minimal `users` table (with an `ativo` column, so that
the consistency pass succeeds) next to the `despesas_fixas` table above. -/
def dbUsersDF : DB :=
  [("users", ⟨[⟨"id", "INTEGER", none⟩, ⟨"ativo", "BOOLEAN", none⟩], [[.int 1, .int 1]]⟩),
   ("despesas_fixas", dfTable)]

/-- An all-NULL row shaped like table `t` (an `INSERT` supplying no values). -/
def nullRow (t : Table) : List Val := t.cols.map (fun _ => Val.null)

/-- Append one row to the named table. -/
def insertRow (db : DB) (tbl : String) (row : List Val) : DB :=
  match lookupTable db tbl with
  | some t => setTable db tbl ⟨t.cols, t.rows ++ [row]⟩
  | none => db

/-- A pre-migration `users` table: old schema, one row, missing the new
profile columns (so `needsMigration` holds). -/
def usersOldTable : Table :=
  ⟨[⟨"id", "INTEGER", none⟩, ⟨"username", "TEXT", none⟩,
    ⟨"password_hash", "TEXT", none⟩, ⟨"perfil", "TEXT", none⟩],
   [[.int 1, .text "master", .text "hash0", .null]]⟩

/-- A database holding only the old `users` table. -/
def dbUsersOld : DB := [("users", usersOldTable)]

/-- A pre-migration `users` table that already carries a non-NULL
`nome_completo` value (but no `email`, so the restructure still runs). -/
def usersAliceTable : Table :=
  ⟨[⟨"id", "INTEGER", none⟩, ⟨"username", "TEXT", none⟩,
    ⟨"password_hash", "TEXT", none⟩, ⟨"perfil", "TEXT", none⟩,
    ⟨"nome_completo", "TEXT", none⟩],
   [[.int 1, .text "alice", .text "hash1", .null, .text "Alice Custom"]]⟩

/-- A database holding only the `users` table with Alice's custom name. -/
def dbUsersAlice : DB := [("users", usersAliceTable)]

/-- A `categorias` table already seeded with one category. -/
def categoriasSeeded : Table :=
  ⟨[⟨"id", "INTEGER", none⟩, ⟨"nome", "TEXT", none⟩],
   [[.int 1, .text "Alimentação"]]⟩

/-- A database holding the seeded `categorias` table. -/
def dbCategoriasSeeded : DB := [("categorias", categoriasSeeded)]

/-- A `categorias` table missing the `descricao` column (old schema). -/
def categoriasOld : Table :=
  ⟨[⟨"id", "INTEGER", none⟩, ⟨"nome", "TEXT", none⟩],
   [[.int 1, .text "Lazer"]]⟩

/-- A failure oracle: the `ALTER TABLE` adding `categorias.descricao` raises. -/
def failsDescricao : String → String → Bool :=
  fun t c => t = "categorias" && c = "descricao"

/-- Non-destructive evolution of one table: every column survives, the row
count is unchanged, and every non-NULL cell keeps its value (cells are
addressed by row index and column position; out-of-range reads are NULL). -/
def TPres (t t2 : Table) : Prop :=
  (∀ c, columnExists t c = true → columnExists t2 c = true)
  ∧ t2.rows.length = t.rows.length
  ∧ (∀ ri j, getCell (t.rows.getD ri []) j ≠ Val.null →
      getCell (t2.rows.getD ri []) j = getCell (t.rows.getD ri []) j)

/-- Non-destructive evolution of a whole database: every table survives and
evolves non-destructively. -/
def DBPres (db db2 : DB) : Prop :=
  ∀ n t, lookupTable db n = some t → ∃ t2, lookupTable db2 n = some t2 ∧ TPres t t2

/-! # Lemmas and theorems -/

/-! ## Cell and column index toolkit -/

theorem getCell_setCell_ne (r : List Val) (i j : Nat) (v : Val) (h : i ≠ j) :
    getCell (setCell r j v) i = getCell r i := by
  induction r generalizing i j with
  | nil =>
    induction j generalizing i with
    | zero =>
      cases i with
      | zero => exact absurd rfl h
      | succ m => simp [setCell, getCell]
    | succ n ih =>
      cases i with
      | zero => simp [setCell, getCell]
      | succ m =>
        have : m ≠ n := by omega
        simpa [setCell, getCell] using ih m this
  | cons x rest ihr =>
    cases j with
    | zero =>
      cases i with
      | zero => exact absurd rfl h
      | succ m => simp [setCell, getCell]
    | succ n =>
      cases i with
      | zero => simp [setCell, getCell]
      | succ m =>
        have : m ≠ n := by omega
        simpa [setCell, getCell] using ihr m n this

theorem getCell_append_len (r : List Val) (x : Val) (n : Nat) (h : r.length = n) :
    getCell (r ++ [x]) n = x := by
  induction r generalizing n with
  | nil => subst h; rfl
  | cons y rest ih =>
    cases n with
    | zero => simp at h
    | succ m =>
      have : rest.length = m := by simpa using h
      simpa [getCell] using ih m this

theorem getCell_append_lt (r : List Val) (x : Val) (i : Nat) (h : i < r.length) :
    getCell (r ++ [x]) i = getCell r i := by
  induction r generalizing i with
  | nil => simp at h
  | cons y rest ih =>
    cases i with
    | zero => rfl
    | succ m =>
      have : m < rest.length := by simpa using h
      simpa [getCell] using ih m this

theorem setCell_append_len (r : List Val) (x v : Val) (n : Nat) (h : r.length = n) :
    setCell (r ++ [x]) n v = r ++ [v] := by
  induction r generalizing n with
  | nil => subst h; rfl
  | cons y rest ih =>
    cases n with
    | zero => simp at h
    | succ m =>
      have : rest.length = m := by simpa using h
      simpa [setCell] using ih m this

theorem colIdxAux_none_iff (cols : List Col) (c : String) :
    colIdxAux cols c = none ↔ ∀ col ∈ cols, col.name ≠ c := by
  induction cols with
  | nil => simp [colIdxAux]
  | cons col rest ih =>
    by_cases hc : col.name = c
    · simp [colIdxAux, hc]
    · simp only [colIdxAux, if_neg hc]
      constructor
      · intro h
        have : colIdxAux rest c = none := by
          cases hr : colIdxAux rest c with
          | none => rfl
          | some i => rw [hr] at h; simp at h
        intro x hx
        rcases List.mem_cons.mp hx with h1 | h1
        · subst h1; exact hc
        · exact (ih.mp this) x h1
      · intro h
        have : colIdxAux rest c = none := ih.mpr (fun x hx => h x (List.mem_cons_of_mem _ hx))
        rw [this]; rfl

theorem colIdxAux_append_absent (cols : List Col) (col : Col) (c : String)
    (h : colIdxAux cols c = none) (hc : col.name = c) :
    colIdxAux (cols ++ [col]) c = some cols.length := by
  induction cols with
  | nil => simp [colIdxAux, hc]
  | cons x rest ih =>
    have hx : x.name ≠ c := by
      intro he
      rw [colIdxAux, if_pos he] at h
      exact Option.noConfusion h
    have hr : colIdxAux rest c = none := by
      rw [colIdxAux, if_neg hx] at h
      cases he : colIdxAux rest c with
      | none => rfl
      | some i => rw [he] at h; simp at h
    simp [colIdxAux, if_neg hx, ih hr]

theorem colIdxAux_append_found (cols cols2 : List Col) (c : String) (i : Nat)
    (h : colIdxAux cols c = some i) :
    colIdxAux (cols ++ cols2) c = some i := by
  induction cols generalizing i with
  | nil => exact Option.noConfusion h
  | cons x rest ih =>
    by_cases hx : x.name = c
    · rw [colIdxAux, if_pos hx] at h
      simp [colIdxAux, if_pos hx, ← h]
    · rw [colIdxAux, if_neg hx] at h
      cases he : colIdxAux rest c with
      | none => rw [he] at h; simp at h
      | some j =>
        rw [he] at h
        simp only [Option.map_some'] at h
        simp [colIdxAux, if_neg hx, ih j he, ← h]

theorem colIdxAux_name_at (cols : List Col) (c : String) (i : Nat)
    (h : colIdxAux cols c = some i) :
    ∃ hlt : i < cols.length, (cols.get ⟨i, hlt⟩).name = c := by
  induction cols generalizing i with
  | nil => exact Option.noConfusion h
  | cons x rest ih =>
    by_cases hx : x.name = c
    · rw [colIdxAux, if_pos hx] at h
      cases h
      exact ⟨by simp, hx⟩
    · rw [colIdxAux, if_neg hx] at h
      cases he : colIdxAux rest c with
      | none => rw [he] at h; simp at h
      | some j =>
        rw [he] at h
        simp only [Option.map_some'] at h
        obtain ⟨hj, hname⟩ := ih j he
        cases h
        exact ⟨by simpa using Nat.succ_lt_succ hj, hname⟩

theorem colIdx_eq_none_of_not_exists (t : Table) (c : String)
    (h : columnExists t c = false) : colIdx t c = none := by
  unfold columnExists at h
  cases he : colIdx t c with
  | none => rfl
  | some i => rw [he] at h; simp at h

/-- After a successful `ALTER TABLE ... ADD COLUMN name`, the new column sits
at position `t.cols.length`. -/
theorem colIdx_addColumn_self (t : Table) (c : Col)
    (h : columnExists t c.name = false) :
    colIdx (addColumn t c) c.name = some t.cols.length := by
  have hnone : colIdx t c.name = none := colIdx_eq_none_of_not_exists t c.name h
  exact colIdxAux_append_absent t.cols c c.name hnone rfl

/-! ## C7: the creation-timestamp backfill rule of `safe_add_column` -/

/-- **C7** (confirmed).  When `safe_add_column` adds a column that has no
declared default, existing rows are backfilled with `datetime('now')` exactly
when the column is `created_at`: for `created_at` every pre-existing row (all
NULL in the new column) immediately receives the current timestamp, for any
other defaultless column every pre-existing row keeps NULL, and a `created_at`
column added *with* a declared default receives that default and no
timestamp backfill. -/
theorem created_at_backfill_rule (now tbl name ty : String) (t : Table)
    (hwf : ∀ r ∈ t.rows, r.length = t.cols.length)
    (habs : columnExists t name = false) :
    ((name = "created_at" →
        (safe_add_column noFail now tbl t name ty none).1.rows
          = t.rows.map (fun r => r ++ [Val.text now]))
     ∧ (name ≠ "created_at" →
        (safe_add_column noFail now tbl t name ty none).1.rows
          = t.rows.map (fun r => r ++ [Val.null]))
     ∧ (name = "created_at" → ∀ d : Val,
        (safe_add_column noFail now tbl t name ty (some d)).1.rows
          = t.rows.map (fun r => r ++ [d]))) := by
  refine ⟨?_, ?_, ?_⟩
  · intro hname
    subst hname
    have hidx : colIdx (addColumn t ⟨"created_at", ty, none⟩) "created_at"
        = some t.cols.length := colIdx_addColumn_self t _ habs
    simp only [safe_add_column, habs, Bool.false_eq_true, if_false, noFail,
      if_true, updateWhereNull]
    rw [if_pos (by simp)]
    simp only [updateWhereNull, hidx]
    show ((addColumn t ⟨"created_at", ty, none⟩).rows.map _) = _
    simp only [addColumn, Option.getD, List.map_map]
    refine List.map_congr_left ?_
    intro r hr
    have hlen : r.length = t.cols.length := hwf r hr
    simp only [Function.comp]
    rw [getCell_append_len r Val.null t.cols.length hlen, if_pos rfl,
      setCell_append_len r Val.null (Val.text now) t.cols.length hlen]
  · intro hname
    simp only [safe_add_column, habs, Bool.false_eq_true, if_false, noFail]
    rw [if_neg (by intro hc; exact hname hc.1)]
    simp [addColumn]
  · intro hname d
    subst hname
    simp only [safe_add_column, habs, Bool.false_eq_true, if_false, noFail]
    rw [if_neg (by intro hc; exact Option.noConfusion hc.2)]
    simp [addColumn]

/-- **C7** witness: the theorem applied at a concrete table. -/
theorem created_at_backfill_rule_witness :
    ((∀ r ∈ dfTable.rows, r.length = dfTable.cols.length)
      ∧ columnExists dfTable "created_at" = false)
    ∧ ((safe_add_column noFail "T0" "despesas_fixas" dfTable "created_at" "TEXT" none).1.rows
        = dfTable.rows.map (fun r => r ++ [Val.text "T0"])) :=
  ⟨⟨by decide, by decide⟩,
   (created_at_backfill_rule "T0" "despesas_fixas" "created_at" "TEXT" dfTable
      (by decide) (by decide)).1 rfl⟩

/-! ## C8: the process exit status of the two scripts -/

/-- **C8** counterexample.  The claim says the process exit status is nonzero
when the run fails; in fact neither script ever calls `sys.exit`, so a failed
`migrate_database()` or `verificar_e_corrigir_estrutura()` still ends with
exit status 0. -/
theorem exit_status_zero_on_failure :
    (main_migrate false).2 = 0 ∧ (main_correcao false).2 = 0 :=
  ⟨rfl, rfl⟩

/-- **C8** (amended).  Both scripts exit with status 0 regardless of whether
the run succeeded; success or failure is signalled only through the printed
banner lines. -/
theorem exit_status_always_zero (b : Bool) :
    (main_migrate b).2 = 0 ∧ (main_correcao b).2 = 0
    ∧ (("❌ Falha na migração!" ∈ (main_migrate b).1) ↔ b = false)
    ∧ (("❌ Falha na correção!" ∈ (main_correcao b).1) ↔ b = false) := by
  cases b <;> exact ⟨rfl, rfl, by decide, by decide⟩

/-! ## Association-list toolkit -/

theorem lookupTable_dropTable_self (db : DB) (n : String) :
    lookupTable (dropTable db n) n = none := by
  induction db with
  | nil => rfl
  | cons p rest ih =>
    obtain ⟨pm, pt⟩ := p
    by_cases hp : pm = n
    · simpa [dropTable, hp] using ih
    · simpa [dropTable, lookupTable, hp] using ih

theorem lookupTable_dropTable_ne (db : DB) (n m : String) (h : m ≠ n) :
    lookupTable (dropTable db n) m = lookupTable db m := by
  induction db with
  | nil => rfl
  | cons p rest ih =>
    obtain ⟨pm, pt⟩ := p
    by_cases hp : pm = n
    · have hnm : ¬ n = m := fun he => h he.symm
      simpa [dropTable, lookupTable, hp, hnm] using ih
    · by_cases hm : pm = m
      · simp [dropTable, lookupTable, hp, hm, h]
      · simpa [dropTable, lookupTable, hp, hm] using ih

theorem dropTable_of_absent (db : DB) (n : String)
    (h : lookupTable db n = none) : dropTable db n = db := by
  induction db with
  | nil => rfl
  | cons p rest ih =>
    obtain ⟨pm, pt⟩ := p
    by_cases hp : pm = n
    · rw [lookupTable, if_pos hp] at h
      exact Option.noConfusion h
    · rw [lookupTable, if_neg hp] at h
      simp [dropTable, hp, ih h]

theorem lookupTable_append_left (db db2 : DB) (n : String) (t : Table)
    (h : lookupTable db n = some t) : lookupTable (db ++ db2) n = some t := by
  induction db with
  | nil => exact Option.noConfusion h
  | cons p rest ih =>
    obtain ⟨pm, pt⟩ := p
    by_cases hp : pm = n
    · rw [lookupTable, if_pos hp] at h
      simpa [lookupTable, hp] using h
    · rw [lookupTable, if_neg hp] at h
      simpa [lookupTable, hp] using ih h

theorem lookupTable_append_right (db db2 : DB) (n : String)
    (h : lookupTable db n = none) : lookupTable (db ++ db2) n = lookupTable db2 n := by
  induction db with
  | nil => rfl
  | cons p rest ih =>
    obtain ⟨pm, pt⟩ := p
    by_cases hp : pm = n
    · rw [lookupTable, if_pos hp] at h
      exact Option.noConfusion h
    · rw [lookupTable, if_neg hp] at h
      simpa [lookupTable, hp] using ih h

theorem setTable_append_absent (db : DB) (n : String) (t t2 : Table)
    (h : lookupTable db n = none) :
    setTable (db ++ [(n, t)]) n t2 = db ++ [(n, t2)] := by
  induction db with
  | nil => simp [setTable]
  | cons p rest ih =>
    obtain ⟨pm, pt⟩ := p
    by_cases hp : pm = n
    · rw [lookupTable, if_pos hp] at h
      exact Option.noConfusion h
    · rw [lookupTable, if_neg hp] at h
      have : ((pm, pt) :: rest) ++ [(n, t)] = (pm, pt) :: (rest ++ [(n, t)]) := rfl
      rw [this, setTable, if_neg hp, ih h]
      rfl

theorem dropTable_append (db db2 : DB) (n : String) :
    dropTable (db ++ db2) n = dropTable db n ++ dropTable db2 n := by
  induction db with
  | nil => rfl
  | cons p rest ih =>
    obtain ⟨pm, pt⟩ := p
    by_cases hp : pm = n
    · simp [dropTable, hp, ih]
    · simp [dropTable, hp, ih]

theorem renameTable_of_absent (db : DB) (old new : String)
    (h : lookupTable db old = none) : renameTable db old new = db := by
  induction db with
  | nil => rfl
  | cons p rest ih =>
    obtain ⟨pm, pt⟩ := p
    by_cases hp : pm = old
    · rw [lookupTable, if_pos hp] at h
      exact Option.noConfusion h
    · rw [lookupTable, if_neg hp] at h
      simp only [renameTable, List.map_cons]
      rw [if_neg hp]
      have : rest.map (fun p => if p.1 = old then (new, p.2) else p) = renameTable rest old new := rfl
      rw [this, ih h]

theorem renameTable_append (db db2 : DB) (old new : String) :
    renameTable (db ++ db2) old new
      = renameTable db old new ++ renameTable db2 old new := by
  simp [renameTable]

theorem lookupTable_setTable_self (db : DB) (n : String) (t t2 : Table)
    (h : lookupTable db n = some t) :
    lookupTable (setTable db n t2) n = some t2 := by
  induction db with
  | nil => exact Option.noConfusion h
  | cons p rest ih =>
    obtain ⟨pm, pt⟩ := p
    by_cases hp : pm = n
    · simp [setTable, hp, lookupTable]
    · rw [lookupTable, if_neg hp] at h
      simpa [setTable, hp, lookupTable] using ih h

theorem lookupTable_setTable_ne (db : DB) (n m : String) (t : Table)
    (h : m ≠ n) : lookupTable (setTable db n t) m = lookupTable db m := by
  induction db with
  | nil => rfl
  | cons p rest ih =>
    obtain ⟨pm, pt⟩ := p
    by_cases hp : pm = n
    · have hnm : ¬ n = m := fun he => h he.symm
      have hpm : ¬ pm = m := by rw [hp]; exact hnm
      simp [setTable, hp, lookupTable, hnm, hpm]
    · by_cases hm : pm = m
      · simp [setTable, hp, lookupTable, hm, h]
      · simpa [setTable, hp, lookupTable, hm] using ih

theorem setTable_of_absent (db : DB) (n : String) (t : Table)
    (h : lookupTable db n = none) : setTable db n t = db := by
  induction db with
  | nil => rfl
  | cons p rest ih =>
    obtain ⟨pm, pt⟩ := p
    by_cases hp : pm = n
    · rw [lookupTable, if_pos hp] at h
      exact Option.noConfusion h
    · rw [lookupTable, if_neg hp] at h
      simp [setTable, hp, ih h]

theorem tableExists_setTable (db : DB) (n m : String) (t : Table) :
    tableExists (setTable db n t) m = tableExists db m := by
  by_cases h : m = n
  · subst h
    cases he : lookupTable db m with
    | none => rw [setTable_of_absent db m t he]
    | some u =>
      unfold tableExists
      rw [lookupTable_setTable_self db m u t he, he]
      rfl
  · unfold tableExists
    rw [lookupTable_setTable_ne db n m t h]

theorem lookupTable_cleanup_ne (db : DB) (n : String)
    (h1 : n ≠ "users_new") (h2 : n ≠ "despesas_new") (h3 : n ≠ "categorias_new") :
    lookupTable (cleanup_temp_tables db) n = lookupTable db n := by
  unfold cleanup_temp_tables
  rw [lookupTable_dropTable_ne _ _ _ h3, lookupTable_dropTable_ne _ _ _ h2,
    lookupTable_dropTable_ne _ _ _ h1]

theorem lookupTable_cleanup_users_new (db : DB) :
    lookupTable (cleanup_temp_tables db) "users_new" = none := by
  unfold cleanup_temp_tables
  rw [lookupTable_dropTable_ne _ _ _ (by decide), lookupTable_dropTable_ne _ _ _ (by decide),
    lookupTable_dropTable_self]

/-! ## C3: the row-count guard of the users restructure -/

theorem runStmts_append (l1 l2 : List (DB → Except MigErr DB)) (db : DB) :
    runStmts (l1 ++ l2) db
      = match runStmts l1 db with
        | .ok db1 => runStmts l2 db1
        | .error e => .error e := by
  induction l1 generalizing db with
  | nil => rfl
  | cons f rest ih =>
    show runStmts (f :: (rest ++ l2)) db = _
    simp only [runStmts]
    cases hf : f db with
    | ok db1 => simp only [hf, ih db1]
    | error e => simp only [hf]

/-- The state after the first three statements of the restructure (cleanup of
`users_new`, creation, copy): the original tables plus a `users_new` table
holding exactly the transformed rows. -/
theorem usersStmts_prep (rows : List (List Val)) (db : DB)
    (hun : lookupTable db "users_new" = none) :
    runStmts ((usersStmts rows).take 3) db
      = .ok (db ++ [("users_new", ⟨usersNewCols, rows⟩)]) := by
  have h1 : dropTable db "users_new" = db := dropTable_of_absent db _ hun
  have h2 : lookupTable (db ++ [("users_new", (⟨usersNewCols, []⟩ : Table))]) "users_new"
      = some ⟨usersNewCols, []⟩ := by
    rw [lookupTable_append_right db _ _ hun]; rfl
  show runStmts _ db = _
  simp only [usersStmts, List.take, runStmts, h1, createTable, h2]
  rw [setTable_append_absent db _ _ _ hun]
  rfl

/-- **C3** (confirmed).  If the rows placed in `users_new` by the copy are
fewer or more than the rows of `users`, the restructure raises the data-loss
error `(expected, actual)` at the row-count guard, before `DROP TABLE users`
and before the rename: at the moment of failure the original `users` table is
still present and unchanged, and after the enclosing transaction rolls back
the database keeps its original `users` table. -/
theorem rowcount_guard (rows : List (List Val)) (db : DB) (u : Table)
    (hu : lookupTable db "users" = some u)
    (hun : lookupTable db "users_new" = none)
    (hmis : u.rows.length ≠ rows.length) :
    runStmts (usersStmts rows) db = .error (.dataLoss u.rows.length rows.length)
    ∧ (∃ db3, runStmts ((usersStmts rows).take 3) db = .ok db3
        ∧ lookupTable db3 "users" = some u
        ∧ lookupTable db3 "users_new" = some ⟨usersNewCols, rows⟩)
    ∧ runMigrationTx (runStmts (usersStmts rows)) db = (false, cleanup_temp_tables db)
    ∧ lookupTable (cleanup_temp_tables db) "users" = some u := by
  have hprep := usersStmts_prep rows db hun
  have hu3 : lookupTable (db ++ [("users_new", (⟨usersNewCols, rows⟩ : Table))]) "users"
      = some u := lookupTable_append_left db _ _ u hu
  have hun3 : lookupTable (db ++ [("users_new", (⟨usersNewCols, rows⟩ : Table))]) "users_new"
      = some ⟨usersNewCols, rows⟩ := by
    rw [lookupTable_append_right db _ _ hun]; rfl
  have hsplit : usersStmts rows = (usersStmts rows).take 3 ++ (usersStmts rows).drop 3 := by
    rw [List.take_append_drop]
  have hfull : runStmts (usersStmts rows) db
      = .error (.dataLoss u.rows.length rows.length) := by
    rw [hsplit, runStmts_append, hprep]
    show runStmts _ (db ++ [("users_new", ⟨usersNewCols, rows⟩)]) = _
    simp only [usersStmts, List.drop, runStmts, hu3, hun3]
    rw [if_pos hmis]
  refine ⟨hfull, ⟨db ++ [("users_new", ⟨usersNewCols, rows⟩)], hprep, hu3, hun3⟩, ?_, ?_⟩
  · unfold runMigrationTx
    rw [hfull]
  · rw [lookupTable_cleanup_ne db "users" (by decide) (by decide) (by decide)]
    exact hu

/-- **C3** witness: a transform output that dropped the only row triggers the
data-loss guard on a concrete database. -/
theorem rowcount_guard_witness :
    (lookupTable dbUsersOld "users" = some usersOldTable
      ∧ lookupTable dbUsersOld "users_new" = none
      ∧ usersOldTable.rows.length ≠ ([] : List (List Val)).length)
    ∧ runStmts (usersStmts []) dbUsersOld
        = .error (.dataLoss usersOldTable.rows.length 0) :=
  ⟨⟨by decide, by decide, by decide⟩,
   (rowcount_guard [] dbUsersOld usersOldTable (by decide) (by decide) (by decide)).1⟩

/-! ## C2: restructure atomicity and recovery -/

theorem exists_colIdx_of_exists (t : Table) (c : String)
    (h : columnExists t c = true) : ∃ i, colIdx t c = some i := by
  unfold columnExists at h
  cases he : colIdx t c with
  | none => rw [he] at h; simp at h
  | some i => exact ⟨i, rfl⟩

theorem transformRow_ok (now : String) (u : Table) (r : List Val)
    (hid : columnExists u "id" = true) (hun : columnExists u "username" = true)
    (hph : columnExists u "password_hash" = true)
    (hpf : columnExists u "perfil" = true) :
    ∃ o, transformRow now u r = .ok o := by
  obtain ⟨i, hi⟩ := exists_colIdx_of_exists u "id" hid
  obtain ⟨j, hj⟩ := exists_colIdx_of_exists u "username" hun
  obtain ⟨k, hk⟩ := exists_colIdx_of_exists u "password_hash" hph
  obtain ⟨l, hl⟩ := exists_colIdx_of_exists u "perfil" hpf
  unfold transformRow
  rw [hi, hj, hk, hl]
  exact ⟨_, rfl⟩

theorem copyRowsAux_ok (now : String) (u : Table) (l : List (List Val))
    (hid : columnExists u "id" = true) (hun : columnExists u "username" = true)
    (hph : columnExists u "password_hash" = true)
    (hpf : columnExists u "perfil" = true) :
    ∃ outs, copyRowsAux now u l = .ok outs ∧ outs.length = l.length := by
  induction l with
  | nil => exact ⟨[], rfl, rfl⟩
  | cons r rest ih =>
    obtain ⟨o, ho⟩ := transformRow_ok now u r hid hun hph hpf
    obtain ⟨outs, houts, hlen⟩ := ih
    refine ⟨o :: outs, ?_, by simp [hlen]⟩
    rw [copyRowsAux, ho, houts]

theorem copyUsersRows_ok (now : String) (u : Table)
    (hid : columnExists u "id" = true) (hun : columnExists u "username" = true)
    (hph : columnExists u "password_hash" = true)
    (hpf : columnExists u "perfil" = true) :
    ∃ rows, copyUsersRows now u = .ok rows ∧ rows.length = u.rows.length :=
  copyRowsAux_ok now u u.rows hid hun hph hpf

/-- The complete restructure statement sequence on a database whose `users_new`
is absent: the result replaces `users` by the rebuilt table and leaves no
`users_new` behind. -/
theorem usersStmts_full (rows : List (List Val)) (db : DB) (u : Table)
    (hu : lookupTable db "users" = some u)
    (hun : lookupTable db "users_new" = none)
    (heq : u.rows.length = rows.length) :
    runStmts (usersStmts rows) db
      = .ok (dropTable db "users" ++ [("users", ⟨usersNewCols, rows⟩)]) := by
  have hprep := usersStmts_prep rows db hun
  have hu3 : lookupTable (db ++ [("users_new", (⟨usersNewCols, rows⟩ : Table))]) "users"
      = some u := lookupTable_append_left db _ _ u hu
  have hun3 : lookupTable (db ++ [("users_new", (⟨usersNewCols, rows⟩ : Table))]) "users_new"
      = some ⟨usersNewCols, rows⟩ := by
    rw [lookupTable_append_right db _ _ hun]; rfl
  have hsplit : usersStmts rows = (usersStmts rows).take 3 ++ (usersStmts rows).drop 3 := by
    rw [List.take_append_drop]
  rw [hsplit, runStmts_append, hprep]
  show runStmts _ (db ++ [("users_new", ⟨usersNewCols, rows⟩)]) = _
  simp only [usersStmts, List.drop, runStmts, hu3, hun3]
  rw [if_neg (by rw [heq]; exact fun h => h rfl)]
  simp only [runStmts]
  rw [dropTable_append]
  have hdrop1 : dropTable [("users_new", (⟨usersNewCols, rows⟩ : Table))] "users"
      = [("users_new", ⟨usersNewCols, rows⟩)] := by
    simp [dropTable]
  rw [hdrop1, renameTable_append]
  have hren1 : renameTable (dropTable db "users") "users_new" "users"
      = dropTable db "users" := by
    refine renameTable_of_absent _ _ _ ?_
    rw [lookupTable_dropTable_ne db "users" "users_new" (by decide)]
    exact hun
  have hren2 : renameTable [("users_new", (⟨usersNewCols, rows⟩ : Table))] "users_new" "users"
      = [("users", ⟨usersNewCols, rows⟩)] := by
    simp [renameTable]
  rw [hren1, hren2]

/-- A full, uninterrupted run of `migrate_users_table` on a table that needs
the restructure succeeds and produces the rebuilt `users` table. -/
theorem migrate_users_success (now : String) (dbF : DB) (u : Table)
    (hu : lookupTable dbF "users" = some u)
    (hm : needsMigration u = true)
    (hid : columnExists u "id" = true) (hun : columnExists u "username" = true)
    (hph : columnExists u "password_hash" = true)
    (hpf : columnExists u "perfil" = true) :
    ∃ rows, copyUsersRows now u = .ok rows ∧ rows.length = u.rows.length
      ∧ migrate_users_table now dbF
          = .ok (dropTable (cleanup_temp_tables dbF) "users"
                  ++ [("users", ⟨usersNewCols, rows⟩)]) := by
  obtain ⟨rows, hrows, hlen⟩ := copyUsersRows_ok now u hid hun hph hpf
  have hcu : lookupTable (cleanup_temp_tables dbF) "users" = some u := by
    rw [lookupTable_cleanup_ne dbF "users" (by decide) (by decide) (by decide)]
    exact hu
  have hcun : lookupTable (cleanup_temp_tables dbF) "users_new" = none :=
    lookupTable_cleanup_users_new dbF
  refine ⟨rows, hrows, hlen, ?_⟩
  unfold migrate_users_table
  simp only [hcu, hm, if_true, hrows]
  exact usersStmts_full rows (cleanup_temp_tables dbF) u hcu hcun hlen.symm

/-- An injected failure always surfaces as an exception from
`migrateUsersFailAt` (either the injected one or an earlier genuine error). -/
theorem migrateUsersFailAt_error (k : Nat) (now : String) (db0 : DB) (u : Table)
    (hu : lookupTable db0 "users" = some u)
    (hm : needsMigration u = true)
    (hid : columnExists u "id" = true) (hun : columnExists u "username" = true)
    (hph : columnExists u "password_hash" = true)
    (hpf : columnExists u "perfil" = true) :
    ∃ e, migrateUsersFailAt k now db0 = .error e := by
  have hcu : lookupTable (cleanup_temp_tables db0) "users" = some u := by
    rw [lookupTable_cleanup_ne db0 "users" (by decide) (by decide) (by decide)]
    exact hu
  obtain ⟨rows, hrows, hlen⟩ := copyUsersRows_ok now u hid hun hph hpf
  unfold migrateUsersFailAt
  simp only [hcu, hm, if_true, hrows]
  cases hr : runStmts ((usersStmts rows).take k) (cleanup_temp_tables db0) with
  | ok db1 => exact ⟨.injected, rfl⟩
  | error e => exact ⟨e, rfl⟩

/-- **C2** (confirmed).  A failure injected into the users restructure after
the creation of `users_new` and before the rename (statement index
`2 ≤ k ≤ 5`) makes the enclosing transaction roll back and run the recovery
cleanup: the resulting database holds the fully original `users` table (never
a half-renamed state) and no `users_new`; and a second invocation of
`migrate_users_table` on that database succeeds cleanly, producing the rebuilt
`users` table with one transformed row per original row and no leftover
temporary table. -/
theorem restructure_failure_recovery (k : Nat) (now1 now2 : String)
    (db0 : DB) (u : Table)
    (hu : lookupTable db0 "users" = some u)
    (hm : needsMigration u = true)
    (hid : columnExists u "id" = true) (hun : columnExists u "username" = true)
    (hph : columnExists u "password_hash" = true)
    (hpf : columnExists u "perfil" = true)
    (hk : 2 ≤ k ∧ k ≤ 5) :
    runMigrationTx (migrateUsersFailAt k now1) db0 = (false, cleanup_temp_tables db0)
    ∧ lookupTable (cleanup_temp_tables db0) "users" = some u
    ∧ lookupTable (cleanup_temp_tables db0) "users_new" = none
    ∧ ∃ rows db2, copyUsersRows now2 u = .ok rows
        ∧ rows.length = u.rows.length
        ∧ runMigrationTx (migrate_users_table now2) (cleanup_temp_tables db0) = (true, db2)
        ∧ lookupTable db2 "users" = some ⟨usersNewCols, rows⟩
        ∧ lookupTable db2 "users_new" = none := by
  have hcu : lookupTable (cleanup_temp_tables db0) "users" = some u := by
    rw [lookupTable_cleanup_ne db0 "users" (by decide) (by decide) (by decide)]
    exact hu
  have hcun : lookupTable (cleanup_temp_tables db0) "users_new" = none :=
    lookupTable_cleanup_users_new db0
  obtain ⟨e, he⟩ := migrateUsersFailAt_error k now1 db0 u hu hm hid hun hph hpf
  refine ⟨?_, hcu, hcun, ?_⟩
  · unfold runMigrationTx
    rw [he]
  · obtain ⟨rows, hrows, hlen, hrun⟩ :=
      migrate_users_success now2 (cleanup_temp_tables db0) u hcu hm hid hun hph hpf
    refine ⟨rows,
      dropTable (cleanup_temp_tables (cleanup_temp_tables db0)) "users"
        ++ [("users", ⟨usersNewCols, rows⟩)],
      hrows, hlen, ?_, ?_, ?_⟩
    · unfold runMigrationTx
      rw [hrun]
    · have hdropu : lookupTable
          (dropTable (cleanup_temp_tables (cleanup_temp_tables db0)) "users") "users"
          = none := lookupTable_dropTable_self _ _
      rw [lookupTable_append_right _ _ _ hdropu]
      simp [lookupTable]
    · have hdropun : lookupTable
          (dropTable (cleanup_temp_tables (cleanup_temp_tables db0)) "users") "users_new"
          = none := by
        rw [lookupTable_dropTable_ne _ _ _ (by decide)]
        exact lookupTable_cleanup_users_new _
      rw [lookupTable_append_right _ _ _ hdropun]
      simp [lookupTable]

/-- **C2** witness: the theorem applied to a concrete pre-migration database
with the failure injected right after the copy (statement index 3). -/
theorem restructure_failure_recovery_witness :
    (lookupTable dbUsersOld "users" = some usersOldTable
      ∧ needsMigration usersOldTable = true
      ∧ columnExists usersOldTable "id" = true
      ∧ columnExists usersOldTable "username" = true
      ∧ columnExists usersOldTable "password_hash" = true
      ∧ columnExists usersOldTable "perfil" = true
      ∧ 2 ≤ 3 ∧ 3 ≤ 5)
    ∧ (runMigrationTx (migrateUsersFailAt 3 "T1") dbUsersOld
        = (false, cleanup_temp_tables dbUsersOld)
      ∧ lookupTable (cleanup_temp_tables dbUsersOld) "users" = some usersOldTable
      ∧ lookupTable (cleanup_temp_tables dbUsersOld) "users_new" = none
      ∧ ∃ rows db2, copyUsersRows "T2" usersOldTable = .ok rows
          ∧ rows.length = usersOldTable.rows.length
          ∧ runMigrationTx (migrate_users_table "T2") (cleanup_temp_tables dbUsersOld)
              = (true, db2)
          ∧ lookupTable db2 "users" = some ⟨usersNewCols, rows⟩
          ∧ lookupTable db2 "users_new" = none) :=
  ⟨⟨by decide, by decide, by decide, by decide, by decide, by decide, by decide, by decide⟩,
   restructure_failure_recovery 3 "T1" "T2" dbUsersOld usersOldTable
     (by decide) (by decide) (by decide) (by decide) (by decide) (by decide)
     ⟨by decide, by decide⟩⟩

/-! ## C9: idempotence of the default-category seeding -/

theorem getCell_map_cols (cols : List Col) (f : Col → Val) (i : Nat)
    (h : i < cols.length) :
    getCell (cols.map f) i = f (cols.get ⟨i, h⟩) := by
  induction cols generalizing i with
  | nil => simp at h
  | cons c rest ih =>
    cases i with
    | zero => rfl
    | succ m =>
      have hm : m < rest.length := by simpa using h
      simpa [getCell] using ih m hm

/-- The row built by `insert_categoria_safe` carries the given `nome` in the
`nome` column. -/
theorem categoriaRow_nome (now : String) (t : Table)
    (nome d c ic : String) (i : Nat) (hi : colIdx t "nome" = some i) :
    getCell (categoriaRow now t nome d c ic) i = Val.text nome := by
  obtain ⟨hlt, hname⟩ := colIdxAux_name_at t.cols "nome" i hi
  unfold categoriaRow
  rw [getCell_map_cols t.cols _ i hlt, hname]
  simp

theorem filter_len_zero_of_any_false {α : Type} (l : List α) (p : α → Bool)
    (h : l.any p = false) : (l.filter p).length = 0 := by
  induction l with
  | nil => rfl
  | cons a rest ih =>
    rw [List.any_cons] at h
    rcases Bool.or_eq_false_iff.mp h with ⟨h1, h2⟩
    rw [List.filter_cons]
    simp only [h1, Bool.false_eq_true, if_false]
    exact ih h2

/-- One `insert_categoria_safe` call cannot push the number of rows of any
given `nome` above `max (previous count) 1`. -/
theorem countNome_insert_le (now : String) (db : DB)
    (nome d c ic : String) (n : String) (db2 : DB)
    (h : insert_categoria_safe now db nome d c ic = .ok db2) :
    countNome db2 n ≤ max (countNome db n) 1 := by
  unfold insert_categoria_safe at h
  cases ht : lookupTable db "categorias" with
  | none => rw [ht] at h; exact Except.noConfusion h
  | some t =>
    simp only [ht] at h
    cases hid : colIdx t "id" with
    | none => simp only [hid] at h; exact Except.noConfusion h
    | some j =>
      simp only [hid] at h
      cases hi : colIdx t "nome" with
      | none => simp only [hi] at h; exact Except.noConfusion h
      | some i =>
        simp only [hi] at h
        by_cases hany : t.rows.any (fun r => getCell r i = Val.text nome) = true
        · rw [if_pos hany] at h
          cases h
          exact le_max_left _ _
        · rw [if_neg hany] at h
          cases h
          have hlook2 : lookupTable
              (setTable db "categorias"
                ⟨t.cols, t.rows ++ [categoriaRow now t nome d c ic]⟩) "categorias"
              = some ⟨t.cols, t.rows ++ [categoriaRow now t nome d c ic]⟩ :=
            lookupTable_setTable_self db _ t _ ht
          have hi2 : colIdx (⟨t.cols, t.rows ++ [categoriaRow now t nome d c ic]⟩ : Table) "nome"
              = some i := hi
          unfold countNome
          simp only [hlook2, hi2, ht, hi]
          rw [List.filter_append, List.length_append]
          have hrowval : getCell (categoriaRow now t nome d c ic) i = Val.text nome :=
            categoriaRow_nome now t nome d c ic i hi
          by_cases hn : Val.text nome = Val.text n
          · have hlen1 : (t.rows.filter (fun r => getCell r i = Val.text n)).length = 0 := by
              have hn2 : n = nome := by
                cases hn; rfl
              subst hn2
              have hfalse : t.rows.any (fun r => getCell r i = Val.text n) = false := by
                cases hval : t.rows.any (fun r => getCell r i = Val.text n) with
                | false => rfl
                | true => exact absurd hval hany
              exact filter_len_zero_of_any_false t.rows _ hfalse
            rw [hlen1]
            have hlen2 : (([categoriaRow now t nome d c ic]).filter
                (fun r => getCell r i = Val.text n)).length ≤ 1 := by
              cases hp : (decide (getCell (categoriaRow now t nome d c ic) i = Val.text n)) <;>
                simp [List.filter, hp]
            omega
          · have hp : (decide (getCell (categoriaRow now t nome d c ic) i = Val.text n)) = false := by
              rw [hrowval]
              exact decide_eq_false hn
            have hlen2 : (([categoriaRow now t nome d c ic]).filter
                (fun r => getCell r i = Val.text n)).length = 0 := by
              simp [List.filter, hp]
            rw [hlen2]
            simp

theorem seedList_count_le (now : String)
    (l : List (String × String × String × String)) (db db2 : DB) (n : String)
    (h : seedList now l db = .ok db2) :
    countNome db2 n ≤ max (countNome db n) 1 := by
  induction l generalizing db with
  | nil =>
    cases h
    exact le_max_left _ _
  | cons e rest ih =>
    rw [seedList] at h
    cases he : insert_categoria_safe now db e.1 e.2.1 e.2.2.1 e.2.2.2 with
    | error err => rw [he] at h; exact Except.noConfusion h
    | ok db1 =>
      rw [he] at h
      have h1 := countNome_insert_le now db e.1 e.2.1 e.2.2.1 e.2.2.2 n db1 he
      have h2 := ih db1 h
      omega

theorem seedCategoriasN_count_le (now : String) (k : Nat) (db db2 : DB) (n : String)
    (h : seedCategoriasN now k db = .ok db2) :
    countNome db2 n ≤ max (countNome db n) 1 := by
  induction k generalizing db with
  | zero =>
    cases h
    exact le_max_left _ _
  | succ m ih =>
    rw [seedCategoriasN] at h
    cases he : seedCategorias now db with
    | error err => rw [he] at h; exact Except.noConfusion h
    | ok db1 =>
      rw [he] at h
      have h1 := seedList_count_le now categorias_padrao db db1 n he
      have h2 := ih db1 h
      omega

/-- **C9** (confirmed).  `insert_categoria_safe` is a no-op whenever a
`categorias` row with the given `nome` already exists (the database is
returned completely unchanged), and consequently running the default-category
seeding pass any number of times never pushes the number of rows sharing one
`nome` above `max (initial count) 1` — it never creates a duplicate `nome`. -/
theorem seed_insert_idempotent :
    (∀ (now : String) (db : DB) (nome d c ic : String) (t : Table) (i : Nat),
       lookupTable db "categorias" = some t →
       columnExists t "id" = true →
       colIdx t "nome" = some i →
       t.rows.any (fun r => getCell r i = Val.text nome) = true →
       insert_categoria_safe now db nome d c ic = .ok db)
    ∧ (∀ (now : String) (k : Nat) (db db2 : DB) (n : String),
       seedCategoriasN now k db = .ok db2 →
       countNome db2 n ≤ max (countNome db n) 1) := by
  constructor
  · intro now db nome d c ic t i ht hid hi hany
    obtain ⟨j, hj⟩ := exists_colIdx_of_exists t "id" hid
    unfold insert_categoria_safe
    simp only [ht, hj, hi, hany, if_true]
  · intro now k db db2 n h
    exact seedCategoriasN_count_le now k db db2 n h

/-- **C9** witness: inserting `Alimentação` into a `categorias` table that
already has it leaves the database unchanged, and two seeding passes on that
database keep the count of `Alimentação` rows at most 1. -/
theorem seed_insert_idempotent_witness :
    (lookupTable dbCategoriasSeeded "categorias" = some categoriasSeeded
      ∧ columnExists categoriasSeeded "id" = true
      ∧ colIdx categoriasSeeded "nome" = some 1
      ∧ categoriasSeeded.rows.any (fun r => getCell r 1 = Val.text "Alimentação") = true)
    ∧ insert_categoria_safe "T0" dbCategoriasSeeded "Alimentação"
        "Gastos com comida e bebidas" "#28a745" "fas fa-utensils" = .ok dbCategoriasSeeded :=
  ⟨⟨by decide, by decide, by decide, by decide⟩,
   seed_insert_idempotent.1 "T0" dbCategoriasSeeded "Alimentação"
     "Gastos com comida e bebidas" "#28a745" "fas fa-utensils" categoriasSeeded 1
     (by decide) (by decide) (by decide) (by decide)⟩

/-! ## C4: isolation of per-column alteration failures -/

/-- Whatever happens to one column, `safe_add_column` reports an entry for
exactly that (table, column) pair. -/
theorem safe_add_column_mentions (fails : String → String → Bool) (now : String)
    (tbl : String) (t : Table) (name ty : String) (dflt : Option Val) :
    (safe_add_column fails now tbl t name ty dflt).2.mentions tbl name = true := by
  unfold safe_add_column
  by_cases h1 : columnExists t name
  · simp [h1, Action.mentions]
  · by_cases h2 : fails tbl name
    · simp [h1, h2, Action.mentions]
    · simp [h1, h2, Action.mentions]

/-- Every column of the spec list gets a report entry from the per-table
loop, no matter which alterations fail. -/
theorem reconcileTable_covers (fails : String → String → Bool) (now : String)
    (tbl : String) (t : Table) (specs : List Col) (spec : Col)
    (hs : spec ∈ specs) :
    ∃ a ∈ (reconcileTable fails now tbl t specs).2,
      a.mentions tbl spec.name = true := by
  induction specs generalizing t with
  | nil => exact absurd hs (List.not_mem_nil spec)
  | cons s rest ih =>
    rw [reconcileTable]
    rcases List.mem_cons.mp hs with he | he
    · subst he
      exact ⟨(safe_add_column fails now tbl t spec.name spec.ty spec.dflt).2,
        List.mem_cons_self _ _, safe_add_column_mentions fails now tbl t spec.name spec.ty spec.dflt⟩
    · obtain ⟨a, ha, hm⟩ := ih ((safe_add_column fails now tbl t s.name s.ty s.dflt).1) he
      exact ⟨a, List.mem_cons_of_mem _ ha, hm⟩

/-- **C4** (amended, confirmed for the post-migration reconciliation).  In
`verificar_e_corrigir_estrutura`'s loop a failing `ALTER TABLE` for one column
is reported as a mutation failure and the loop carries on: the remaining
columns are processed exactly as they would have been (first conjunct), and
every column of every existing target table receives a report entry no matter
which alterations fail (second conjunct) — a single column failure never
aborts the reconciliation of the rest of the run. -/
theorem column_failure_isolation :
    (∀ (fails : String → String → Bool) (now tbl : String) (t : Table)
       (spec : Col) (rest : List Col),
       columnExists t spec.name = false → fails tbl spec.name = true →
       reconcileTable fails now tbl t (spec :: rest)
         = ((reconcileTable fails now tbl t rest).1,
            .mutationFailed tbl spec.name :: (reconcileTable fails now tbl t rest).2))
    ∧ (∀ (fails : String → String → Bool) (now : String) (db : DB) (target : Target)
       (tn : String) (specs : List Col),
       (tn, specs) ∈ target → tableExists db tn = true →
       ∀ spec ∈ specs, ∃ a ∈ (reconcileLoop fails now db target).2,
         a.mentions tn spec.name = true) := by
  constructor
  · intro fails now tbl t spec rest hc hf
    rw [reconcileTable]
    unfold safe_add_column
    simp only [hc, Bool.false_eq_true, if_false, hf, if_true]
  · intro fails now db target
    induction target generalizing db with
    | nil =>
      intro tn specs hmem
      exact absurd hmem (List.not_mem_nil _)
    | cons entry rest ih =>
      intro tn specs hmem hex spec hs
      rcases List.mem_cons.mp hmem with he | he
      · cases he
        rw [reconcileLoop]
        have hsome : ∃ t, lookupTable db tn = some t := by
          unfold tableExists at hex
          cases hl : lookupTable db tn with
          | none => rw [hl] at hex; simp at hex
          | some t => exact ⟨t, rfl⟩
        obtain ⟨t, ht⟩ := hsome
        rw [ht]
        obtain ⟨a, ha, hm⟩ := reconcileTable_covers fails now tn t specs spec hs
        exact ⟨a, List.mem_append.mpr (Or.inl ha), hm⟩
      · rw [reconcileLoop]
        cases hl : lookupTable db entry.1 with
        | some t =>
          have hex2 : tableExists (setTable db entry.1
              (reconcileTable fails now entry.1 t entry.2).1) tn = true := by
            rw [tableExists_setTable]
            exact hex
          obtain ⟨a, ha, hm⟩ := ih _ tn specs he hex2 spec hs
          exact ⟨a, List.mem_append.mpr (Or.inr ha), hm⟩
        | none =>
          obtain ⟨a, ha, hm⟩ := ih db tn specs he hex spec hs
          exact ⟨a, List.mem_cons_of_mem _ ha, hm⟩

/-- **C4** witness: the first conjunct applied to a failing `descricao`
alteration on a concrete `categorias` table — the failure is reported and the
four remaining columns are still processed. -/
theorem column_failure_isolation_witness :
    (columnExists categoriasOld "descricao" = false
      ∧ failsDescricao "categorias" "descricao" = true)
    ∧ reconcileTable failsDescricao "T0" "categorias" categoriasOld categoriasColumnsToAdd
        = ((reconcileTable failsDescricao "T0" "categorias" categoriasOld
              categoriasColumnsToAdd.tail).1,
           .mutationFailed "categorias" "descricao"
             :: (reconcileTable failsDescricao "T0" "categorias" categoriasOld
                   categoriasColumnsToAdd.tail).2) :=
  ⟨⟨by decide, by decide⟩,
   column_failure_isolation.1 failsDescricao "T0" "categorias" categoriasOld
     ⟨"descricao", "TEXT", none⟩ categoriasColumnsToAdd.tail (by decide) (by decide)⟩

/-- **C4** counterexample.  In the v3 migration script `safe_add_column` has
no `try/except`: the same failing `descricao` alteration makes the whole
`migrate_categorias_table` loop raise, so the remaining columns (`cor`,
`icone`, `ativo`, `created_at`) are never processed — contradicting the claim
that a single column failure never aborts reconciliation of the rest. -/
theorem v3_column_failure_aborts :
    migrate_categorias_table failsDescricao "T0" categoriasOld
      = .error (.noSuchColumn "descricao") := by
  rfl

/-! ## C6: the despesas_fixas backfill-count scenario -/

/-- **C6** counterexample.  On the claimed starting state — a database holding
only a `despesas_fixas` table with 3 rows and no `ativo` column — the
reconciliation run does *not* report `RowsBackfilled(despesas_fixas, ativo, 3)`:
its report contains no `RowsBackfilled` entry at all.  (Two reasons: the
`ALTER TABLE` gives the 3 existing rows the declared default directly, so the
null-count that triggers a backfill is 0; and the unguarded `users` consistency
query fails on this database, so the run is rolled back and returns failure.) -/
theorem backfill_scenario_counterexample :
    (verificar_e_corrigir_estrutura noFail "T1" estruturas_esperadas dbOnlyDF).ok = false
    ∧ ((verificar_e_corrigir_estrutura noFail "T1" estruturas_esperadas dbOnlyDF).report.any
        (fun a => a.isRowsBackfilled)) = false
    ∧ ((.rowsBackfilled "despesas_fixas" "ativo" 3 : Action)
        ∈ (verificar_e_corrigir_estrutura noFail "T1" estruturas_esperadas dbOnlyDF).report)
        = False := by
  refine ⟨by decide, by decide, by decide⟩

/-- **C6** (amended).  On a database that also carries the `users` table the
consistency pass needs, the first reconciliation run succeeds: it adds
`despesas_fixas.ativo` with default true, the three existing rows receive the
default directly (no nulls, hence no `RowsBackfilled` entry in the report);
after inserting one row with `ativo = NULL`, a second run reports a backfill
of exactly 1 row for `(despesas_fixas, ativo)`. -/
theorem backfill_scenario_amended :
    (verificar_e_corrigir_estrutura noFail "T1" estruturas_esperadas dbUsersDF).ok = true
    ∧ ((.columnAdded "despesas_fixas" "ativo" : Action)
        ∈ (verificar_e_corrigir_estrutura noFail "T1" estruturas_esperadas dbUsersDF).report)
    ∧ ((lookupTable (verificar_e_corrigir_estrutura noFail "T1" estruturas_esperadas dbUsersDF).db
          "despesas_fixas").map
        (fun t => t.cols.contains ⟨"ativo", "BOOLEAN", some (.int 1)⟩)) = some true
    ∧ ((lookupTable (verificar_e_corrigir_estrutura noFail "T1" estruturas_esperadas dbUsersDF).db
          "despesas_fixas").map
        (fun t => countNullT t "ativo")) = some (some 0)
    ∧ ((verificar_e_corrigir_estrutura noFail "T1" estruturas_esperadas dbUsersDF).report.any
        (fun a => a.isRowsBackfilled)) = false
    ∧ ((.rowsBackfilled "despesas_fixas" "ativo" 1 : Action)
        ∈ (verificar_e_corrigir_estrutura noFail "T2" estruturas_esperadas
            (insertRow
              (verificar_e_corrigir_estrutura noFail "T1" estruturas_esperadas dbUsersDF).db
              "despesas_fixas" (List.replicate 8 Val.null))).report) := by
  refine ⟨by decide, by decide, by decide, by decide, by decide, by decide⟩

/-! ## C5: non-destructive column addition (frame property) -/

theorem getCell_oob (r : List Val) (j : Nat) (h : r.length ≤ j) :
    getCell r j = Val.null := by
  induction r generalizing j with
  | nil => rfl
  | cons x rest ih =>
    cases j with
    | zero => simp at h
    | succ m => exact ih m (by simpa using h)

theorem TPres_refl (t : Table) : TPres t t :=
  ⟨fun _ h => h, rfl, fun _ _ _ => rfl⟩

theorem TPres_trans (t1 t2 t3 : Table) (h12 : TPres t1 t2) (h23 : TPres t2 t3) :
    TPres t1 t3 := by
  obtain ⟨hc1, hl1, hv1⟩ := h12
  obtain ⟨hc2, hl2, hv2⟩ := h23
  refine ⟨fun c hc => hc2 c (hc1 c hc), hl2.trans hl1, ?_⟩
  intro ri j hnn
  have e1 := hv1 ri j hnn
  have hnn2 : getCell (t2.rows.getD ri []) j ≠ Val.null := by rw [e1]; exact hnn
  rw [hv2 ri j hnn2, e1]

theorem rows_map_pres (rows : List (List Val)) (f : List Val → List Val)
    (hf : ∀ r j, getCell r j ≠ Val.null → getCell (f r) j = getCell r j) :
    ∀ ri j, getCell (rows.getD ri []) j ≠ Val.null →
      getCell ((rows.map f).getD ri []) j = getCell (rows.getD ri []) j := by
  intro ri j
  induction rows generalizing ri with
  | nil => intro h; exact absurd rfl h
  | cons r rest ih =>
    cases ri with
    | zero => intro h; exact hf r j h
    | succ m => intro h; exact ih m h

theorem addColumn_TPres (t : Table) (col : Col) : TPres t (addColumn t col) := by
  refine ⟨?_, by simp [addColumn], ?_⟩
  · intro c hc
    unfold columnExists colIdx at hc ⊢
    cases he : colIdxAux t.cols c with
    | none => rw [he] at hc; simp at hc
    | some i =>
      rw [show (addColumn t col).cols = t.cols ++ [col] from rfl,
        colIdxAux_append_found t.cols [col] c i he]
      rfl
  · exact rows_map_pres t.rows _ (fun r j h => by
      by_cases hj : j < r.length
      · exact getCell_append_lt r _ j hj
      · exact absurd (getCell_oob r j (le_of_not_lt hj)) h)

theorem updateWhereNull_TPres (t : Table) (c : String) (v : Val) :
    TPres t (updateWhereNull t c v) := by
  unfold updateWhereNull
  cases he : colIdx t c with
  | none => exact TPres_refl t
  | some i =>
    refine ⟨fun c2 hc => hc, by simp, ?_⟩
    exact rows_map_pres t.rows _ (fun r j h => by
      by_cases hr : getCell r i = Val.null
      · rw [if_pos hr]
        have hij : j ≠ i := fun he2 => h (he2 ▸ hr)
        exact getCell_setCell_ne r j i v hij
      · rw [if_neg hr])

theorem safe_add_column_TPres (fails : String → String → Bool) (now tbl : String)
    (t : Table) (name ty : String) (dflt : Option Val) :
    TPres t (safe_add_column fails now tbl t name ty dflt).1 := by
  unfold safe_add_column
  by_cases h1 : columnExists t name
  · simp only [h1, if_true]
    exact TPres_refl t
  · simp only [h1, Bool.false_eq_true, if_false]
    by_cases h2 : fails tbl name
    · simp only [h2, if_true]
      exact TPres_refl t
    · simp only [h2, Bool.false_eq_true, if_false]
      by_cases h3 : name = "created_at" ∧ dflt = none
      · rw [if_pos h3]
        exact TPres_trans _ _ _ (addColumn_TPres t _) (updateWhereNull_TPres _ _ _)
      · rw [if_neg h3]
        exact addColumn_TPres t _

theorem reconcileTable_TPres (fails : String → String → Bool) (now tbl : String)
    (t : Table) (specs : List Col) :
    TPres t (reconcileTable fails now tbl t specs).1 := by
  induction specs generalizing t with
  | nil => exact TPres_refl t
  | cons s rest ih =>
    rw [reconcileTable]
    exact TPres_trans _ _ _
      (safe_add_column_TPres fails now tbl t s.name s.ty s.dflt)
      (ih (safe_add_column fails now tbl t s.name s.ty s.dflt).1)

theorem DBPres_refl (db : DB) : DBPres db db :=
  fun _ t h => ⟨t, h, TPres_refl t⟩

theorem DBPres_trans (d1 d2 d3 : DB) (h12 : DBPres d1 d2) (h23 : DBPres d2 d3) :
    DBPres d1 d3 := by
  intro n t h
  obtain ⟨t2, h2, hp2⟩ := h12 n t h
  obtain ⟨t3, h3, hp3⟩ := h23 n t2 h2
  exact ⟨t3, h3, TPres_trans t t2 t3 hp2 hp3⟩

theorem setTable_DBPres (db : DB) (n : String) (t t2 : Table)
    (hl : lookupTable db n = some t) (hp : TPres t t2) :
    DBPres db (setTable db n t2) := by
  intro m u hm
  by_cases he : m = n
  · subst he
    have hut : u = t := by
      rw [hm] at hl
      exact Option.some.inj hl
    subst hut
    exact ⟨t2, lookupTable_setTable_self db m u t2 hm, hp⟩
  · exact ⟨u, by rw [lookupTable_setTable_ne db n m t2 he]; exact hm, TPres_refl u⟩

theorem reconcileLoop_DBPres (fails : String → String → Bool) (now : String)
    (target : Target) :
    ∀ db : DB, DBPres db (reconcileLoop fails now db target).1 := by
  induction target with
  | nil => intro db; exact DBPres_refl db
  | cons e rest ih =>
    intro db
    rw [reconcileLoop]
    cases hl : lookupTable db e.1 with
    | some t =>
      exact DBPres_trans _ _ _
        (setTable_DBPres db e.1 t _ hl (reconcileTable_TPres fails now e.1 t e.2))
        (ih _)
    | none => exact ih db

theorem safe_add_column_ddl_TPres (fails : String → String → Bool)
    (tbl : String) (t : Table) (name ty : String) (dflt : Option Val) :
    TPres t (safe_add_column_ddl fails tbl t name ty dflt) := by
  unfold safe_add_column_ddl
  by_cases h1 : columnExists t name
  · simp only [h1, if_true]
    exact TPres_refl t
  · simp only [h1, Bool.false_eq_true, if_false]
    by_cases h2 : fails tbl name
    · simp only [h2, if_true]
      exact TPres_refl t
    · simp only [h2, Bool.false_eq_true, if_false]
      exact addColumn_TPres t _

theorem reconcileTableDDL_TPres (fails : String → String → Bool) (tbl : String)
    (t : Table) (specs : List Col) :
    TPres t (reconcileTableDDL fails tbl t specs) := by
  induction specs generalizing t with
  | nil => exact TPres_refl t
  | cons s rest ih =>
    rw [reconcileTableDDL]
    exact TPres_trans _ _ _
      (safe_add_column_ddl_TPres fails tbl t s.name s.ty s.dflt)
      (ih (safe_add_column_ddl fails tbl t s.name s.ty s.dflt))

theorem reconcileLoopDDL_DBPres (fails : String → String → Bool)
    (target : Target) :
    ∀ db : DB, DBPres db (reconcileLoopDDL fails db target) := by
  induction target with
  | nil => intro db; exact DBPres_refl db
  | cons e rest ih =>
    intro db
    rw [reconcileLoopDDL]
    cases hl : lookupTable db e.1 with
    | some t =>
      exact DBPres_trans _ _ _
        (setTable_DBPres db e.1 t _ hl (reconcileTableDDL_TPres fails e.1 t e.2))
        (ih _)
    | none => exact ih db

theorem backfillNull_DBPres (db : DB) (tbl c : String) (v : Val) :
    DBPres db (backfillNull db tbl c v) := by
  unfold backfillNull
  cases hl : lookupTable db tbl with
  | none => exact DBPres_refl db
  | some t => exact setTable_DBPres db tbl t _ hl (updateWhereNull_TPres t c v)

theorem checkAndFix_DBPres (tbl c : String) (v : Val)
    (st st2 : DB × List Action) (h : checkAndFix tbl c v st = .ok st2) :
    DBPres st.1 st2.1 := by
  unfold checkAndFix at h
  cases hc : countNullDB st.1 tbl c with
  | error e => rw [hc] at h; exact Except.noConfusion h
  | ok nn =>
    simp only [hc] at h
    by_cases hn : nn > 0
    · rw [if_pos hn] at h
      cases h
      exact backfillNull_DBPres st.1 tbl c v
    · rw [if_neg hn] at h
      cases h
      exact DBPres_refl _

theorem checkAndFixGuarded_DBPres (tbl c : String) (v : Val)
    (st st2 : DB × List Action) (h : checkAndFixGuarded tbl c v st = .ok st2) :
    DBPres st.1 st2.1 := by
  unfold checkAndFixGuarded at h
  by_cases hg : tableExists st.1 tbl
  · rw [if_pos hg] at h
    exact checkAndFix_DBPres tbl c v st st2 h
  · rw [if_neg hg] at h
    cases h
    exact DBPres_refl _

theorem fixCreatedAtStep_DBPres (now tbl : String) (st : DB × List Action) :
    DBPres st.1 (fixCreatedAtStep now tbl st).1 := by
  unfold fixCreatedAtStep
  split
  · rename_i t hl
    split
    · rename_i nn hc
      split
      · exact setTable_DBPres st.1 tbl t _ hl (updateWhereNull_TPres t "created_at" (Val.text now))
      · exact DBPres_refl _
    · exact DBPres_refl _
  · exact DBPres_refl _

theorem fixCreatedAtList_DBPres (now : String) (l : List String) :
    ∀ st : DB × List Action, DBPres st.1 (fixCreatedAtList now l st).1 := by
  induction l with
  | nil => intro st; exact DBPres_refl _
  | cons tbl rest ih =>
    intro st
    rw [fixCreatedAtList]
    exact DBPres_trans _ _ _ (fixCreatedAtStep_DBPres now tbl st) (ih _)

theorem fixPassAll_DBPres (now : String) (db : DB) (st : DB × List Action)
    (h : fixPassAll now db = .ok st) : DBPres db st.1 := by
  unfold fixPassAll at h
  cases h1 : checkAndFix "users" "ativo" (.int 1) (db, []) with
  | error e => simp only [h1] at h; exact Except.noConfusion h
  | ok st1 =>
    simp only [h1] at h
    cases h2 : checkAndFixGuarded "categorias" "ativo" (.int 1) st1 with
    | error e => simp only [h2] at h; exact Except.noConfusion h
    | ok st2 =>
      simp only [h2] at h
      cases h3 : checkAndFixGuarded "categorias" "cor" (.text "#667eea") st2 with
      | error e => simp only [h3] at h; exact Except.noConfusion h
      | ok st3 =>
        simp only [h3] at h
        cases h4 : checkAndFixGuarded "despesas_fixas" "ativo" (.int 1) st3 with
        | error e => simp only [h4] at h; exact Except.noConfusion h
        | ok st4 =>
          simp only [h4] at h
          cases h
          exact DBPres_trans _ _ _ (checkAndFix_DBPres _ _ _ _ _ h1)
            (DBPres_trans _ _ _ (checkAndFixGuarded_DBPres _ _ _ _ _ h2)
              (DBPres_trans _ _ _ (checkAndFixGuarded_DBPres _ _ _ _ _ h3)
                (DBPres_trans _ _ _ (checkAndFixGuarded_DBPres _ _ _ _ _ h4)
                  (fixCreatedAtList_DBPres now tabelasComCreatedAt st4))))

/-- The whole reconciliation run evolves the database non-destructively. -/
theorem verificar_DBPres (fails : String → String → Bool) (now : String)
    (target : Target) (db : DB) :
    DBPres db (verificar_e_corrigir_estrutura fails now target db).db := by
  unfold verificar_e_corrigir_estrutura
  cases hf : fixPassAll now (reconcileLoop fails now db target).1 with
  | ok st =>
    simp only [hf]
    exact DBPres_trans _ _ _ (reconcileLoop_DBPres fails now target db)
      (fixPassAll_DBPres now _ st hf)
  | error e =>
    simp only [hf]
    exact reconcileLoopDDL_DBPres fails target db

/-- **C5** (amended, confirmed for the reconciliation procedure).  After a run
of `verificar_e_corrigir_estrutura`, every table is still present, every
column that existed before the run is still present, the number of rows is
unchanged, and every cell that held a non-NULL value holds the same value —
only NULL cells can have been (back)filled. -/
theorem reconcile_nondestructive (fails : String → String → Bool) (now : String)
    (target : Target) (db : DB) (n : String) (t : Table)
    (h : lookupTable db n = some t) :
    ∃ t2, lookupTable (verificar_e_corrigir_estrutura fails now target db).db n = some t2
      ∧ (∀ c, columnExists t c = true → columnExists t2 c = true)
      ∧ t2.rows.length = t.rows.length
      ∧ (∀ ri j, getCell (t.rows.getD ri []) j ≠ Val.null →
          getCell (t2.rows.getD ri []) j = getCell (t.rows.getD ri []) j) := by
  obtain ⟨t2, h2, hc, hl, hv⟩ := verificar_DBPres fails now target db n t h
  exact ⟨t2, h2, hc, hl, hv⟩

/-- **C5** witness: the frame theorem applied to the `despesas_fixas` table of
a concrete database. -/
theorem reconcile_nondestructive_witness :
    (lookupTable dbUsersDF "despesas_fixas" = some dfTable)
    ∧ ∃ t2, lookupTable
        (verificar_e_corrigir_estrutura noFail "T1" estruturas_esperadas dbUsersDF).db
        "despesas_fixas" = some t2
      ∧ (∀ c, columnExists dfTable c = true → columnExists t2 c = true)
      ∧ t2.rows.length = dfTable.rows.length
      ∧ (∀ ri j, getCell (dfTable.rows.getD ri []) j ≠ Val.null →
          getCell (t2.rows.getD ri []) j = getCell (dfTable.rows.getD ri []) j) :=
  ⟨by decide,
   reconcile_nondestructive noFail "T1" estruturas_esperadas dbUsersDF
     "despesas_fixas" dfTable (by decide)⟩

/-- **C5** counterexample.  The users-table restructure of the migration
script, by contrast, *does* overwrite existing non-NULL values: on a `users`
table whose row has `nome_completo = 'Alice Custom'` (and no `email` column,
so the copy-swap runs), `migrate_users_table` rebuilds the row with
`nome_completo` recomputed from the CASE expression, leaving `'alice'` —
the pre-existing non-NULL value is overwritten. -/
theorem restructure_overwrites_nome_completo :
    ((lookupTable dbUsersAlice "users").map
        (fun t => (colIdx t "nome_completo").map (fun i => getCell (t.rows.getD 0 []) i)))
      = some (some (Val.text "Alice Custom"))
    ∧ ((migrate_users_table "T1" dbUsersAlice).toOption.map
        (fun db2 => (lookupTable db2 "users").map
          (fun t => (colIdx t "nome_completo").map (fun i => getCell (t.rows.getD 0 []) i))))
      = some (some (some (Val.text "alice"))) :=
  ⟨by decide, by decide⟩

/-! ## C1: idempotence of the reconciliation run

The development follows the two runs of `verificar_e_corrigir_estrutura`:
after a successful first run every target column is present and every
backfill-checked (table, column) pair counts zero NULLs, so the second run's
loop is the identity (only `ColumnAlreadyPresent` / `TableMissing` entries)
and its consistency passes change nothing. -/

/-- `safe_add_column` never removes a column (any oracle). -/
theorem safe_add_mono (fails : String → String → Bool) (now tbl : String)
    (t : Table) (name ty : String) (dflt : Option Val) (c : String)
    (h : columnExists t c = true) :
    columnExists (safe_add_column fails now tbl t name ty dflt).1 c = true :=
  (safe_add_column_TPres fails now tbl t name ty dflt).1 c h

theorem prefB_iff (p s : List Char) : prefB p s = true ↔ Pref p s := by
  induction p generalizing s with
  | nil =>
    simp only [prefB, Pref, true_iff]
    exact ⟨s, rfl⟩
  | cons a as ih =>
    cases s with
    | nil =>
      simp only [prefB, Pref]
      constructor
      · intro h; exact Bool.noConfusion h
      · rintro ⟨t, ht⟩; exact List.noConfusion ht
    | cons b bs =>
      rw [prefB]
      by_cases hab : a = b
      · subst hab
        rw [if_pos rfl, ih]
        constructor
        · rintro ⟨t, ht⟩
          exact ⟨t, by rw [List.cons_append, ht]⟩
        · rintro ⟨t, ht⟩
          rw [List.cons_append] at ht
          exact ⟨t, List.tail_eq_of_cons_eq ht⟩
      · rw [if_neg hab]
        constructor
        · intro h; exact Bool.noConfusion h
        · rintro ⟨t, ht⟩
          rw [List.cons_append] at ht
          exact absurd (List.head_eq_of_cons_eq ht) hab

theorem infx_nil (q : List Char) : Infx q [] ↔ q = [] := by
  constructor
  · rintro ⟨a, b, hab⟩
    rcases List.append_eq_nil.mp hab with ⟨h1, h2⟩
    exact (List.append_eq_nil.mp h1).2
  · rintro rfl
    exact ⟨[], [], rfl⟩

theorem infx_cons (q : List Char) (c : Char) (t : List Char) :
    Infx q (c :: t) ↔ Pref q (c :: t) ∨ Infx q t := by
  constructor
  · rintro ⟨a, b, hab⟩
    cases a with
    | nil =>
      left
      exact ⟨b, by simpa using hab⟩
    | cons a0 as =>
      right
      rw [List.cons_append, List.cons_append] at hab
      exact ⟨as, b, List.tail_eq_of_cons_eq hab⟩
  · rintro (⟨tl, htl⟩ | ⟨a, b, hab⟩)
    · exact ⟨[], tl, htl⟩
    · exact ⟨c :: a, b, by rw [← hab]; rfl⟩

theorem hasInfix_iff (q s : List Char) : hasInfix q s = true ↔ Infx q s := by
  induction s with
  | nil =>
    rw [hasInfix, infx_nil]
    simp [List.isEmpty_iff]
  | cons c t ih =>
    rw [hasInfix, Bool.or_eq_true, prefB_iff, ih, infx_cons]

theorem pref_infx (q s : List Char) (h : Pref q s) : Infx q s := by
  obtain ⟨t, ht⟩ := h
  exact ⟨[], t, ht⟩

theorem infx_trans (a b c : List Char) (h1 : Infx a b) (h2 : Infx b c) :
    Infx a c := by
  obtain ⟨x, y, hb⟩ := h1
  obtain ⟨u, v, hc⟩ := h2
  refine ⟨u ++ x, y ++ v, ?_⟩
  rw [← hc, ← hb]
  simp [List.append_assoc]

theorem pref_append_cases (x : List Char) :
    ∀ (q y : List Char), Pref q (x ++ y) →
      Pref q x ∨ ∃ q2, q = x ++ q2 ∧ Pref q2 y := by
  induction x with
  | nil =>
    intro q y h
    right
    exact ⟨q, rfl, by simpa using h⟩
  | cons c xs ih =>
    intro q y h
    cases q with
    | nil =>
      left
      exact ⟨c :: xs, rfl⟩
    | cons d ds =>
      obtain ⟨t, ht⟩ := h
      rw [List.cons_append, List.cons_append] at ht
      have hd : d = c := List.head_eq_of_cons_eq ht
      have hds : Pref ds (xs ++ y) := ⟨t, List.tail_eq_of_cons_eq ht⟩
      rcases ih ds y hds with hc | ⟨q2, hq2, hp⟩
      · left
        obtain ⟨u, hu⟩ := hc
        exact ⟨u, by rw [hd, List.cons_append, hu]⟩
      · right
        exact ⟨q2, by rw [hd, hq2, List.cons_append], hp⟩

theorem pref_comparable (s : List Char) :
    ∀ u v : List Char, Pref u s → Pref v s → Pref u v ∨ Pref v u := by
  induction s with
  | nil =>
    intro u v hu hv
    obtain ⟨a, ha⟩ := hu
    rcases List.append_eq_nil.mp ha with ⟨rfl, -⟩
    left
    exact ⟨v, rfl⟩
  | cons c t ih =>
    intro u v hu hv
    cases u with
    | nil => left; exact ⟨v, rfl⟩
    | cons a as =>
      cases v with
      | nil => right; exact ⟨a :: as, rfl⟩
      | cons b bs =>
        obtain ⟨x, hx⟩ := hu
        obtain ⟨y, hy⟩ := hv
        rw [List.cons_append] at hx hy
        have ha : a = c := List.head_eq_of_cons_eq hx
        have hb : b = c := List.head_eq_of_cons_eq hy
        have hu2 : Pref as t := ⟨x, List.tail_eq_of_cons_eq hx⟩
        have hv2 : Pref bs t := ⟨y, List.tail_eq_of_cons_eq hy⟩
        rcases ih as bs hu2 hv2 with h | h
        · left
          obtain ⟨z, hz⟩ := h
          exact ⟨z, by rw [List.cons_append, hz, ha, hb]⟩
        · right
          obtain ⟨z, hz⟩ := h
          exact ⟨z, by rw [List.cons_append, hz, ha, hb]⟩

theorem suff_cons (v : List Char) (c : Char) (s : List Char) (h : Suff v s) :
    Suff v (c :: s) := by
  obtain ⟨t, ht⟩ := h
  exact ⟨c :: t, by rw [List.cons_append, ht]⟩

theorem infx_append_cases (x : List Char) :
    ∀ (q y : List Char), Infx q (x ++ y) →
      Infx q x ∨ Infx q y
      ∨ ∃ q1 q2, q = q1 ++ q2 ∧ q1 ≠ [] ∧ q2 ≠ [] ∧ Suff q1 x ∧ Pref q2 y := by
  induction x with
  | nil =>
    intro q y h
    right; left
    simpa using h
  | cons c xs ih =>
    intro q y h
    rw [List.cons_append] at h
    rcases (infx_cons q c (xs ++ y)).mp h with hp | hi
    · rw [← List.cons_append] at hp
      rcases pref_append_cases (c :: xs) q y hp with hc | ⟨q2, hq2, hpy⟩
      · left
        exact pref_infx q (c :: xs) hc
      · cases q2 with
        | nil =>
          left
          rw [List.append_nil] at hq2
          exact ⟨[], [], by rw [hq2]; simp⟩
        | cons e es =>
          right; right
          exact ⟨c :: xs, e :: es, hq2, List.noConfusion, List.noConfusion,
            ⟨[], rfl⟩, hpy⟩
    · rcases ih q y hi with hc | hc | ⟨q1, q2, hq, h1, h2, hs, hp⟩
      · left
        exact (infx_cons q c xs).mpr (Or.inr hc)
      · right; left
        exact hc
      · right; right
        exact ⟨q1, q2, hq, h1, h2, suff_cons q1 c xs hs, hp⟩

theorem pref_trans (a b c : List Char) (h1 : Pref a b) (h2 : Pref b c) :
    Pref a c := by
  obtain ⟨x, hx⟩ := h1
  obtain ⟨y, hy⟩ := h2
  exact ⟨x ++ y, by rw [← List.append_assoc, hx, hy]⟩

theorem suff_infx (u s : List Char) (h : Suff u s) : Infx u s := by
  obtain ⟨t, ht⟩ := h
  exact ⟨t, [], by rw [List.append_nil]; exact ht⟩

theorem drop_suff (s : List Char) (n : Nat) : Suff (s.drop n) s :=
  ⟨s.take n, List.take_append_drop n s⟩

theorem infx_nil_left (s : List Char) : Infx [] s :=
  ⟨[], s, rfl⟩

theorem splitP_ne_nil (p s : List Char) : splitP p s ≠ [] := by
  cases s with
  | nil =>
    rw [splitP]
    exact fun hh => List.noConfusion hh
  | cons c t =>
    rw [splitP]
    by_cases h : p ≠ [] ∧ prefB p (c :: t) = true
    · rw [dif_pos h]
      exact fun hh => List.noConfusion hh
    · rw [dif_neg h]
      cases heq : splitP p t with
      | nil => exact fun hh => List.noConfusion hh
      | cons x xs => exact fun hh => List.noConfusion hh

theorem joinSep_cons_cons (r x : List Char) (c : Char) (xs : List (List Char)) :
    joinSep r ((c :: x) :: xs) = c :: joinSep r (x :: xs) := by
  cases xs with
  | nil => rfl
  | cons y ys => rfl

theorem replaceAll_eq_joinSep (p r s : List Char) :
    replaceAll p r s = joinSep r (splitP p s) := by
  induction s using splitP.induct p with
  | case1 =>
    rw [replaceAll, splitP]
    rfl
  | case2 c t h ih =>
    rw [replaceAll, splitP, dif_pos h, dif_pos h, ih]
    cases heq : splitP p ((c :: t).drop p.length) with
    | nil => exact absurd heq (splitP_ne_nil p _)
    | cons x xs => rfl
  | case3 c t h heq ih => exact absurd heq (splitP_ne_nil p t)
  | case4 c t h x xs heq ih =>
    rw [replaceAll, splitP, dif_neg h, dif_neg h]
    simp only [heq]
    rw [ih, heq, joinSep_cons_cons]

theorem splitP_head_pref (p s : List Char) :
    ∀ x xs, splitP p s = x :: xs → Pref x s := by
  induction s using splitP.induct p with
  | case1 =>
    intro x xs hx
    rw [splitP] at hx
    cases hx
    exact ⟨[], rfl⟩
  | case2 c t h ih =>
    intro x xs hx
    rw [splitP, dif_pos h] at hx
    cases hx
    exact ⟨c :: t, rfl⟩
  | case3 c t h heq ih => exact absurd heq (splitP_ne_nil p t)
  | case4 c t h x xs heq ih =>
    intro x2 xs2 hx
    rw [splitP, dif_neg h] at hx
    simp only [heq] at hx
    cases hx
    obtain ⟨u, hu⟩ := ih x xs heq
    exact ⟨u, by rw [List.cons_append, hu]⟩

theorem splitP_free (p s : List Char) (hp : p ≠ []) :
    ∀ x ∈ splitP p s, hasInfix p x = false := by
  induction s using splitP.induct p with
  | case1 =>
    intro x hx
    rw [splitP] at hx
    rcases List.mem_cons.mp hx with h1 | h1
    · subst h1
      cases p with
      | nil => exact absurd rfl hp
      | cons a as => rfl
    · exact absurd h1 (List.not_mem_nil x)
  | case2 c t h ih =>
    intro x hx
    rw [splitP, dif_pos h] at hx
    rcases List.mem_cons.mp hx with h1 | h1
    · subst h1
      cases p with
      | nil => exact absurd rfl hp
      | cons a as => rfl
    · exact ih x h1
  | case3 c t h heq ih => exact absurd heq (splitP_ne_nil p t)
  | case4 c t h x xs heq ih =>
    intro x2 hx2
    rw [splitP, dif_neg h] at hx2
    simp only [heq] at hx2
    rcases List.mem_cons.mp hx2 with h1 | h1
    · subst h1
      rw [hasInfix]
      have hfree : hasInfix p x = false :=
        ih x (by rw [heq]; exact List.mem_cons_self x xs)
      have hpx : prefB p (c :: x) = false := by
        cases hb : prefB p (c :: x) with
        | false => rfl
        | true =>
          have h1p : Pref p (c :: x) := (prefB_iff p (c :: x)).mp hb
          have h2p : Pref (c :: x) (c :: t) := by
            obtain ⟨u, hu⟩ := splitP_head_pref p t x xs heq
            exact ⟨u, by rw [List.cons_append, hu]⟩
          have h4 : prefB p (c :: t) = true :=
            (prefB_iff p (c :: t)).mpr (pref_trans p (c :: x) (c :: t) h1p h2p)
          exact absurd ⟨hp, h4⟩ h
      rw [hpx, hfree]
      rfl
    · exact ih x2 (by rw [heq]; exact List.mem_cons_of_mem x h1)

theorem splitP_infx (p s : List Char) :
    ∀ x ∈ splitP p s, Infx x s := by
  induction s using splitP.induct p with
  | case1 =>
    intro x hx
    rw [splitP] at hx
    rcases List.mem_cons.mp hx with h1 | h1
    · subst h1
      exact infx_nil_left []
    · exact absurd h1 (List.not_mem_nil x)
  | case2 c t h ih =>
    intro x hx
    rw [splitP, dif_pos h] at hx
    rcases List.mem_cons.mp hx with h1 | h1
    · subst h1
      exact infx_nil_left (c :: t)
    · exact infx_trans x ((c :: t).drop p.length) (c :: t) (ih x h1)
        (suff_infx _ _ (drop_suff (c :: t) p.length))
  | case3 c t h heq ih => exact absurd heq (splitP_ne_nil p t)
  | case4 c t h x xs heq ih =>
    intro x2 hx2
    rw [splitP, dif_neg h] at hx2
    simp only [heq] at hx2
    rcases List.mem_cons.mp hx2 with h1 | h1
    · subst h1
      obtain ⟨u, hu⟩ := splitP_head_pref p t x xs heq
      exact pref_infx (c :: x) (c :: t) ⟨u, by rw [List.cons_append, hu]⟩
    · exact (infx_cons x2 c t).mpr
        (Or.inr (ih x2 (by rw [heq]; exact List.mem_cons_of_mem x h1)))

theorem suff_mem_tails (v s : List Char) (h : Suff v s) : v ∈ s.tails := by
  obtain ⟨t, ht⟩ := h
  exact (List.mem_tails v s).mpr ⟨t, ht⟩

theorem noCross_elim (q r : List Char) (h : noCross q r = true) :
    hasInfix q r = false ∧ hasInfix r q = false
    ∧ (∀ y, Suff y r → y ≠ [] → prefB y q = false)
    ∧ (∀ v, Suff v q → v ≠ [] → prefB v r = false) := by
  rw [noCross] at h
  simp only [Bool.and_eq_true, Bool.not_eq_true'] at h
  obtain ⟨⟨⟨hqr, hrq⟩, hall1⟩, hall2⟩ := h
  refine ⟨hqr, hrq, ?_, ?_⟩
  · intro y hy hne
    have hthis := (List.all_eq_true.mp hall1) y (suff_mem_tails y r hy)
    cases y with
    | nil => exact absurd rfl hne
    | cons a as =>
      simp only [List.isEmpty_cons, Bool.false_or, Bool.not_eq_true'] at hthis
      exact hthis
  · intro v hv hne
    have hthis := (List.all_eq_true.mp hall2) v (suff_mem_tails v q hv)
    cases v with
    | nil => exact absurd rfl hne
    | cons a as =>
      simp only [List.isEmpty_cons, Bool.false_or, Bool.not_eq_true'] at hthis
      exact hthis

theorem no_infx_joinSep (q r : List Char) (hq : q ≠ [])
    (hcross : noCross q r = true) :
    ∀ chunks : List (List Char), (∀ x ∈ chunks, ¬ Infx q x) →
      ¬ Infx q (joinSep r chunks) := by
  obtain ⟨hqr, hrq, hsr, hsq⟩ := noCross_elim q r hcross
  intro chunks
  induction chunks with
  | nil =>
    intro _ hinf
    rw [joinSep] at hinf
    exact hq ((infx_nil q).mp hinf)
  | cons x chunks ih =>
    intro hfree hinf
    cases chunks with
    | nil =>
      rw [joinSep] at hinf
      exact hfree x (List.mem_cons_self x []) hinf
    | cons y ys =>
      rw [joinSep, List.append_assoc] at hinf
      have hJ : ¬ Infx q (joinSep r (y :: ys)) :=
        ih (fun z hz => hfree z (List.mem_cons_of_mem x hz))
      rcases infx_append_cases x q (r ++ joinSep r (y :: ys)) hinf with
        hc | hc | ⟨q1, q2, hqeq, hq1, hq2, hs1, hp2⟩
      · exact hfree x (List.mem_cons_self x (y :: ys)) hc
      · rcases infx_append_cases r q (joinSep r (y :: ys)) hc with
          hc2 | hc2 | ⟨p1, p2, hpeq, hp1, hpp2, hsuf1, hpref2⟩
        · rw [← hasInfix_iff, hqr] at hc2
          exact Bool.noConfusion hc2
        · exact hJ hc2
        · have hb0 : prefB p1 q = false := hsr p1 hsuf1 hp1
          have hpq : Pref p1 q := ⟨p2, by rw [hpeq]⟩
          rw [(prefB_iff p1 q).mpr hpq] at hb0
          exact Bool.noConfusion hb0
      · rcases pref_append_cases r q2 (joinSep r (y :: ys)) hp2 with
          hpr | ⟨q3, hq3, hp3⟩
        · have hsuf : Suff q2 q := ⟨q1, hqeq.symm⟩
          have hb0 : prefB q2 r = false := hsq q2 hsuf hq2
          rw [(prefB_iff q2 r).mpr hpr] at hb0
          exact Bool.noConfusion hb0
        · have hinfr : Infx r q :=
            ⟨q1, q3, by rw [List.append_assoc, ← hq3]; exact hqeq.symm⟩
          rw [← hasInfix_iff, hrq] at hinfr
          exact Bool.noConfusion hinfr

theorem replaceAll_pres (p r q s : List Char) (hq : q ≠ [])
    (hcross : noCross q r = true) (hfree : hasInfix q s = false) :
    hasInfix q (replaceAll p r s) = false := by
  cases hb : hasInfix q (replaceAll p r s) with
  | false => rfl
  | true =>
    have hinf : Infx q (replaceAll p r s) := (hasInfix_iff _ _).mp hb
    rw [replaceAll_eq_joinSep] at hinf
    refine absurd hinf (no_infx_joinSep q r hq hcross (splitP p s) ?_)
    intro x hx hqx
    have h2 : Infx q s := infx_trans q x s hqx (splitP_infx p s x hx)
    rw [← hasInfix_iff, hfree] at h2
    exact Bool.noConfusion h2

theorem replaceAll_no_self (p r s : List Char) (hp : p ≠ [])
    (hcross : noCross p r = true) :
    hasInfix p (replaceAll p r s) = false := by
  cases hb : hasInfix p (replaceAll p r s) with
  | false => rfl
  | true =>
    have hinf : Infx p (replaceAll p r s) := (hasInfix_iff _ _).mp hb
    rw [replaceAll_eq_joinSep] at hinf
    refine absurd hinf (no_infx_joinSep p r hp hcross (splitP p s) ?_)
    intro x hx hqx
    rw [← hasInfix_iff, splitP_free p s hp x hx] at hqx
    exact Bool.noConfusion hqx

theorem applyFix_no_self (st : List Char × List (List Char × Nat))
    (pr : List Char × List Char) (hp : pr.1 ≠ [])
    (hcross : noCross pr.1 pr.2 = true) :
    hasInfix pr.1 (applyFix st pr).1 = false := by
  rw [applyFix]
  by_cases hg : hasInfix pr.1 st.1 = true
  · rw [if_pos hg]
    exact replaceAll_no_self pr.1 pr.2 st.1 hp hcross
  · rw [if_neg hg]
    cases hb : hasInfix pr.1 st.1 with
    | false => rfl
    | true => exact absurd hb hg

theorem applyFix_pres (q : List Char) (st : List Char × List (List Char × Nat))
    (pr : List Char × List Char) (hq : q ≠ [])
    (hcross : noCross q pr.2 = true) (hfree : hasInfix q st.1 = false) :
    hasInfix q (applyFix st pr).1 = false := by
  rw [applyFix]
  by_cases hg : hasInfix pr.1 st.1 = true
  · rw [if_pos hg]
    exact replaceAll_pres pr.1 pr.2 q st.1 hq hcross hfree
  · rw [if_neg hg]
    exact hfree

theorem foldl_applyFix_pres (q : List Char) (hq : q ≠ [])
    (l : List (List Char × List Char)) :
    ∀ st, (∀ pr ∈ l, noCross q pr.2 = true) →
      hasInfix q st.1 = false →
      hasInfix q (l.foldl applyFix st).1 = false := by
  induction l with
  | nil =>
    intro st _ hfree
    exact hfree
  | cons pr0 l ih =>
    intro st hcross hfree
    rw [List.foldl_cons]
    exact ih (applyFix st pr0)
      (fun pr hpr => hcross pr (List.mem_cons_of_mem pr0 hpr))
      (applyFix_pres q st pr0 hq (hcross pr0 (List.mem_cons_self pr0 l)) hfree)

theorem foldl_applyFix_establishes (l : List (List Char × List Char))
    (hne : ∀ pr ∈ l, pr.1 ≠ [])
    (hcross : ∀ pr1 ∈ l, ∀ pr2 ∈ l, noCross pr1.1 pr2.2 = true) :
    ∀ st, ∀ pr ∈ l, hasInfix pr.1 (l.foldl applyFix st).1 = false := by
  induction l with
  | nil =>
    intro st pr hpr
    exact absurd hpr (List.not_mem_nil pr)
  | cons pr0 l ih =>
    intro st pr hpr
    rw [List.foldl_cons]
    rcases List.mem_cons.mp hpr with h1 | h1
    · subst h1
      exact foldl_applyFix_pres pr.1 (hne pr (List.mem_cons_self pr l)) l
        (applyFix st pr)
        (fun pr2 hpr2 => hcross pr (List.mem_cons_self pr l) pr2
          (List.mem_cons_of_mem pr hpr2))
        (applyFix_no_self st pr (hne pr (List.mem_cons_self pr l))
          (hcross pr (List.mem_cons_self pr l) pr (List.mem_cons_self pr l)))
    · exact ih (fun pr2 h2 => hne pr2 (List.mem_cons_of_mem pr0 h2))
        (fun pr1 ha pr2 hb => hcross pr1 (List.mem_cons_of_mem pr0 ha)
          pr2 (List.mem_cons_of_mem pr0 hb))
        (applyFix st pr0) pr h1

theorem foldl_applyFix_inert (l : List (List Char × List Char)) :
    ∀ st, (∀ pr ∈ l, hasInfix pr.1 st.1 = false) →
      l.foldl applyFix st = st := by
  induction l with
  | nil =>
    intro st _
    rfl
  | cons pr0 l ih =>
    intro st hfree
    rw [List.foldl_cons]
    have h0 : applyFix st pr0 = st := by
      rw [applyFix, hfree pr0 (List.mem_cons_self pr0 l)]
      rfl
    rw [h0]
    exact ih st (fun pr h => hfree pr (List.mem_cons_of_mem pr0 h))

theorem consultas_ne_nil : ∀ pr ∈ consultas_especificas, pr.1 ≠ [] := by
  decide

theorem consultas_noCross :
    ∀ pr1 ∈ consultas_especificas, ∀ pr2 ∈ consultas_especificas,
      noCross pr1.1 pr2.2 = true := by
  decide

theorem corrigirContent_free (s : List Char) :
    ∀ pr ∈ consultas_especificas, hasInfix pr.1 (corrigirContent s) = false := by
  intro pr hpr
  rw [corrigirContent, corrigirState]
  exact foldl_applyFix_establishes consultas_especificas consultas_ne_nil
    consultas_noCross (s, []) pr hpr

/-- **C10** (implicit text-substitution idempotence): for every input string,
the output of one application of `corrigir_consultas_especificas` contains
none of the seven searched patterns (`WHERE grupo_id`, `AND grupo_id`,
`ORDER BY grupo_id`, `GROUP BY grupo_id`, `WHERE user_id`, `AND user_id`,
`ORDER BY user_id`), so a second application changes nothing: the modified
content is a fixed point, and the second call reports no corrections
(returns `(None, [])`). -/
theorem corrigir_consultas_idempotent (s : List Char) :
    corrigirContent (corrigirContent s) = corrigirContent s
    ∧ corrigir_consultas_especificas (corrigirContent s) = (none, [])
    ∧ ∀ pr ∈ consultas_especificas,
        hasInfix pr.1 (corrigirContent s) = false := by
  have hinert : corrigirState (corrigirContent s) = (corrigirContent s, []) := by
    rw [corrigirState]
    exact foldl_applyFix_inert consultas_especificas (corrigirContent s, [])
      (corrigirContent_free s)
  refine ⟨?_, ?_, corrigirContent_free s⟩
  · rw [corrigirContent, hinert]
  · rw [corrigir_consultas_especificas]
    simp only [hinert]
    simp

end Despesas
